/-
Verification of the resume-data-extraction application (src/app.py) against its
natural-language specification.

The development shallowly embeds the Python source into Lean:

* Python strings are Lean `String`s; the string operations the source uses
  (`str.lower`, `str.endswith`, `str.strip`, `str.split`, `str.join`) are
  re-implemented over the underlying character lists so that all definitions
  evaluate by kernel reduction.
* JSON values produced by `json.loads` are the inductive type `Json`.
* The external collaborators (PyMuPDF document parsing and the OpenAI chat
  completion endpoint) are oracles passed in as function arguments: the fitz
  parse of one uploaded file is `parse : String → Option String` (the argument
  is the `filetype` string the code passes to `fitz.open`; `none` models a
  raised exception), and the LLM service is `llm : ChatRequest → LLMResult`.
* Streamlit side effects (st.error, st.warning, st.title, st.subheader,
  st.write, st.expander) are modelled as emitted output values (`Msg`, `Out`);
  `st.session_state['extracted_data']` is the explicit association list
  `Store`, threaded through the processing functions, with an event trace
  (`Ev`) recording extraction calls, stores and messages.
-/
import Mathlib

set_option maxRecDepth 8192

namespace ResumeApp

/-! ### Python string primitives, re-implemented over character lists -/

/-- `str.lower` restricted to ASCII letters (the only characters that appear in
the file names of the claims; Python lowercases them the same way). -/
def asciiLower (c : Char) : Char :=
  if 'A' ≤ c ∧ c ≤ 'Z' then Char.ofNat (c.toNat + 32) else c

/-- Python `s.lower()`. -/
def pyLower (s : String) : String := ⟨s.data.map asciiLower⟩

/-- Python `s.endswith(suffix)`. -/
def pyEndsWith (s suffix : String) : Bool :=
  List.isSuffixOf suffix.data s.data

/-- Python `s.strip()`: remove leading and trailing whitespace. -/
def pyStrip (s : String) : String :=
  ⟨((s.data.dropWhile Char.isWhitespace).reverse.dropWhile Char.isWhitespace).reverse⟩

/-- Helper for `pySplitNewline`: accumulate the current chunk (reversed). -/
def splitLinesAux : List Char → List Char → List String
  | [], acc => [⟨acc.reverse⟩]
  | c :: rest, acc =>
    if c = '\n' then ⟨acc.reverse⟩ :: splitLinesAux rest []
    else splitLinesAux rest (c :: acc)

/-- Python `s.split('\n')` (keeps empty chunks, like Python `split` with an
explicit separator). -/
def pySplitNewline (s : String) : List String := splitLinesAux s.data []

/-- Python `sep.join(xs)` for a list of strings. -/
def pyJoinList (sep : String) (xs : List String) : String :=
  match xs with
  | [] => ""
  | x :: rest => rest.foldl (fun acc y => acc ++ sep ++ y) x

/-- Whether `sub` occurs as a contiguous infix of `l`. -/
def listInfixOf (sub : List Char) : List Char → Bool
  | [] => sub.isEmpty
  | c :: rest => sub.isPrefixOf (c :: rest) || listInfixOf sub rest

/-- Python `sub in s` for strings. -/
def containsStr (s sub : String) : Bool := listInfixOf sub.data s.data

/-! ### JSON values (results of `json.loads`) -/

/-- A JSON value as produced by Python `json.loads`.  JSON numbers are modelled
as integers: no claim depends on numeric values, only on their truthiness. -/
inductive Json where
  | null
  | bool (b : Bool)
  | num (n : Int)
  | str (s : String)
  | arr (elems : List Json)
  | obj (fields : List (String × Json))
  deriving Repr

/-- Python truthiness of a JSON value (`if info:` etc.):
`None`, `False`, `0`, `""`, `[]` and `{}` are falsy. -/
def Json.truthy : Json → Bool
  | .null => false
  | .bool b => b
  | .num n => n != 0
  | .str s => !s.data.isEmpty
  | .arr xs => !xs.isEmpty
  | .obj fs => !fs.isEmpty

mutual

/-- Python `repr` of a JSON value (used by `str` inside containers).  The
escaping Python applies to quotes inside strings is not modelled; no claim
depends on the rendering of nested containers. -/
def pyReprJ : Json → String
  | .null => "None"
  | .bool b => if b then "True" else "False"
  | .num n => toString n
  | .str s => "\x27" ++ s ++ "\x27"
  | .arr xs => "[" ++ pyReprL xs ++ "]"
  | .obj fs => "\x7b" ++ pyReprF fs ++ "\x7d"

/-- `repr` of the elements of a JSON array, comma separated. -/
def pyReprL : List Json → String
  | [] => ""
  | [x] => pyReprJ x
  | x :: y :: rest => pyReprJ x ++ ", " ++ pyReprL (y :: rest)

/-- `repr` of the fields of a JSON object, comma separated. -/
def pyReprF : List (String × Json) → String
  | [] => ""
  | [(k, v)] => "\x27" ++ k ++ "\x27: " ++ pyReprJ v
  | (k, v) :: x :: rest => "\x27" ++ k ++ "\x27: " ++ pyReprJ v ++ ", " ++ pyReprF (x :: rest)

end

/-- Python `str()` of a JSON value, as interpolated by f-strings. -/
def pyStr : Json → String
  | .null => "None"
  | .bool b => if b then "True" else "False"
  | .num n => toString n
  | .str s => s
  | .arr xs => pyReprJ (.arr xs)
  | .obj fs => pyReprJ (.obj fs)

/-- Python `d.get(k)` on the field list of a JSON object: first binding wins
(an actual `dict` has unique keys). -/
def dictGet (fs : List (String × Json)) (k : String) : Option Json :=
  (fs.find? (fun p => p.1 == k)).map Prod.snd

/-- Python `d.get(k, default)`. -/
def dictGetD (fs : List (String × Json)) (k : String) (d : Json) : Json :=
  (dictGet fs k).getD d

/-- Python iteration `for x in v` over a JSON value: arrays yield their
elements, strings their characters, dicts their keys; anything else raises
`TypeError` (`none`). -/
def pyIterate : Json → Option (List Json)
  | .arr xs => some xs
  | .str s => some (s.data.map (fun c => .str ⟨[c]⟩))
  | .obj fs => some (fs.map (fun p => .str p.1))
  | _ => none

/-- Python `sep.join(v)`: requires `v` to be an iterable of strings. -/
def pyJoinStrs (sep : String) : Json → Option String
  | .arr xs =>
      if xs.all (fun j => match j with | .str _ => true | _ => false) then
        some (pyJoinList sep (xs.map (fun j => match j with | .str s => s | _ => "")))
      else none
  | .str s => some (pyJoinList sep (s.data.map (fun c => ⟨[c]⟩)))
  | .obj fs => some (pyJoinList sep (fs.map Prod.fst))
  | _ => none

/-! ### User-visible messages and rendered output -/

/-- The user-visible non-fatal messages the source emits. -/
inductive Msg where
  /-- `st.error("Error extracting text from file: ...")` (app.py line 30) -/
  | extractTextError
  /-- `st.error("Unsupported file format. Please upload PDF or DOCX files only.")` (line 37) -/
  | unsupportedFormat
  /-- `st.error("Error extracting information: ...")` (line 74) -/
  | extractInfoError
  /-- `st.warning("Please enter your OpenAI API key to continue.")` (line 166) -/
  | apiKeyWarning
  deriving Repr, DecidableEq

/-- One rendered output element of `display_formatted_resume`. -/
inductive Out where
  | title (s : String)
  | subheader (s : String)
  | write (s : String)
  | expanderHeader (s : String)
  deriving Repr, DecidableEq

/-- Events recorded while processing an upload event or running `main`. -/
inductive Ev where
  /-- `ResumeParser(api_key)` constructed (line 172). -/
  | newParser
  /-- `parser.extract_text(file)` invoked for the named file (line 148). -/
  | callExtractText (name : String)
  /-- `parser.extract_information(text)` invoked for the named file (line 150). -/
  | callExtractInfo (name : String)
  /-- A user-visible message was emitted. -/
  | message (m : Msg)
  /-- `st.session_state['extracted_data'][name] = info` executed (line 152). -/
  | stored (name : String)
  /-- An `Out` element rendered in the main content area. -/
  | rendered (o : Out)
  deriving Repr, DecidableEq

/-! ### ResumeParser: text extraction (app.py lines 13-38) -/

/-- One uploaded file: its name, and an oracle for what PyMuPDF yields when the
code opens its bytes with a given `filetype` string — `some t` is the
concatenated page text, `none` models `fitz.open`/`page.get_text` raising. -/
structure UploadedFile where
  name : String
  parse : String → Option String

/-- The `filetype` argument of `fitz.open` (line 19):
`"docx" if file.name.endswith((".docx", ".doc")) else "pdf"`. -/
def chosenFiletype (nm : String) : String :=
  if pyEndsWith nm ".docx" || pyEndsWith nm ".doc" then "docx" else "pdf"

/-- `ResumeParser.extract_text_from_file` (lines 13-31): open the document with
the chosen filetype and return its text; any exception is caught, an error
message is shown, and `""` is returned. -/
def extract_text_from_file (f : UploadedFile) : String × List Msg :=
  match f.parse (chosenFiletype f.name) with
  | some t => (t, [])
  | none => ("", [Msg.extractTextError])

/-- The extension test of `extract_text` (line 34):
`file.name.lower().endswith(('.pdf', '.docx', '.doc'))`. -/
def acceptedExt (nm : String) : Bool :=
  pyEndsWith (pyLower nm) ".pdf" || pyEndsWith (pyLower nm) ".docx" ||
    pyEndsWith (pyLower nm) ".doc"

/-- `ResumeParser.extract_text` (lines 33-38). -/
def extract_text (f : UploadedFile) : String × List Msg :=
  if acceptedExt f.name then extract_text_from_file f
  else ("", [Msg.unsupportedFormat])

/-! ### ResumeParser: information extraction (app.py lines 40-75) -/

/-- One line of the prompt's field list: `indent ++ "- " ++ name ++ ": " ++ description ++ newline`. -/
def fieldLine (indent nm desc : String) : String :=
  indent ++ "- " ++ nm ++ ": " ++ desc ++ "\n"

/-- First line of the prompt (line 41 of app.py). -/
def promptIntro : String :=
  "Extract the following structured information from the resume text. Ensure consistency in format and field names. If data is not exist in resume, leave it empty. Return the data in JSON format:\n"

/-- Everything of the prompt f-string before the interpolated `{text}`
(lines 41-64 of app.py; the f-string is a literal, transcribed here as the
concatenation of its lines). -/
def promptLead : String :=
  promptIntro ++
  fieldLine "        " "name" "Full name of the candidate (string)" ++
  fieldLine "        " "education" "List of educational qualifications (list of dictionaries)" ++
  "          Each dictionary contains:\n" ++
  fieldLine "            " "institution" "Name of the institution (string)" ++
  fieldLine "            " "location" "Location of the institution (string)" ++
  fieldLine "            " "degree" "Degree earned (string)" ++
  fieldLine "            " "date" "Completion date (string)" ++
  fieldLine "        " "nationality" "Candidate\x27s nationality (string)" ++
  fieldLine "        " "dob" "Date of birth (string)" ++
  fieldLine "        " "languages" "List of languages known (list of strings)" ++
  fieldLine "        " "location" "Current location/residence (string)" ++
  fieldLine "        " "experience" "List of work experiences (list of dictionaries)" ++
  "          Each dictionary contains:\n" ++
  fieldLine "            " "company_name" "Name of the company (string)" ++
  fieldLine "            " "position" "Job title (string)" ++
  fieldLine "            " "duration" "Employment period (string)" ++
  fieldLine "            " "job_description" "All of job responsibilities (string)" ++
  fieldLine "        " "certificates" "List of valid certificates (list of strings)" ++
  fieldLine "        " "visas" "List of valid work visas (list of strings)" ++
  fieldLine "        " "summary" "AI-generated summary of the candidate\x27s profile (2-3 sentences, string)" ++
  "        \n        Resume text:\n        "

/-- Everything of the prompt f-string after the interpolated `{text}`
(end of line 64 to line 65 of app.py). -/
def promptTail : String := "\n        "

/-- The full prompt `extract_information` builds for a given resume text. -/
def promptFor (text : String) : String := promptLead ++ text ++ promptTail

/-- The field names of the prompt's field list, in prompt order. -/
def promptFieldNames : List String :=
  ["name", "education", "nationality", "dob", "languages", "location",
   "experience", "certificates", "visas", "summary"]

/-- One request to `client.chat.completions.create` (lines 67-71). -/
structure ChatRequest where
  model : String
  messages : List (String × String)
  responseFormat : String
  deriving Repr, DecidableEq

/-- Outcome of the `create` call followed by `json.loads` on the reply:
the call raised, the reply failed to parse as JSON, or it parsed to a value. -/
inductive LLMResult where
  | apiError
  | badJson (raw : String)
  | parsed (j : Json)

/-- The single request `extract_information` sends for a given text. -/
def chatRequestFor (text : String) : ChatRequest :=
  ⟨"gpt-4o-mini", [("user", promptFor text)], "json_object"⟩

/-- `ResumeParser.extract_information` (lines 40-75): build the prompt, send
one request, parse the reply as JSON; any exception yields an error message and
`{}`.  Returns (result, messages, requests sent). -/
def extract_information (text : String) (llm : ChatRequest → LLMResult) :
    Json × List Msg × List ChatRequest :=
  let req := chatRequestFor text
  match llm req with
  | .parsed j => (j, [], [req])
  | .apiError => (Json.obj [], [Msg.extractInfoError], [req])
  | .badJson _ => (Json.obj [], [Msg.extractInfoError], [req])

/-! ### display_formatted_resume (app.py lines 77-138)

Each section function returns its rendered output together with a flag that is
`true` when the Python code would raise an uncaught exception at that point
(e.g. `.get` on a non-dict, `.split` on a non-string, `join`/iteration over a
non-iterable).  Output already rendered before the raise is kept, matching
Streamlit, which displays elements incrementally. -/

/-- Basic information block (lines 87-95); `.get` with `'N/A'` defaults never
raises. -/
def basicInfoOuts (fs : List (String × Json)) : List Out :=
  [ .write ("**Name:** " ++ pyStr (dictGetD fs "name" (.str "N/A"))),
    .write ("**Location:** " ++ pyStr (dictGetD fs "location" (.str "N/A"))),
    .write ("**Nationality:** " ++ pyStr (dictGetD fs "nationality" (.str "N/A"))),
    .write ("**Date of Birth:** " ++ pyStr (dictGetD fs "dob" (.str "N/A"))) ]

/-- Summary section (lines 97-100). -/
def summarySection (fs : List (String × Json)) : List Out × Bool :=
  let v := dictGetD fs "summary" .null
  if v.truthy then ([.subheader "📝 Professional Summary", .write (pyStr v)], false)
  else ([], false)

/-- The bullet list from one `job_description` string (lines 109-112). -/
def bulletOuts (jd : String) : List Out :=
  (pySplitNewline jd).filterMap (fun d =>
    let t := pyStrip d
    if t.data.isEmpty then none else some (.write ("- " ++ t)))

/-- One work-experience entry (lines 105-112): the expander title is built
first; `.get` raises unless the entry is a dict, and `.split` raises unless
`job_description` is a string. -/
def expEntrySection (e : Json) : List Out × Bool :=
  match e with
  | .obj fs =>
      let hd : Out := .expanderHeader
        (pyStr (dictGetD fs "position" (.str "Role")) ++ " at " ++
          pyStr (dictGetD fs "company_name" (.str "Company")))
      let dur : Out := .write ("**Duration:** " ++ pyStr (dictGetD fs "duration" (.str "N/A")))
      let jdHdr : Out := .write "**Job Description:**"
      match dictGetD fs "job_description" (.str "") with
      | .str jd => ([hd, dur, jdHdr] ++ bulletOuts jd, false)
      | _ => ([hd, dur, jdHdr], true)
  | _ => ([], true)

/-- Iterate the entries of a section, stopping at the first raise. -/
def entriesLoop (f : Json → List Out × Bool) : List Json → List Out × Bool
  | [] => ([], false)
  | e :: rest =>
      let (o, err) := f e
      if err then (o, true)
      else
        let (o2, err2) := entriesLoop f rest
        (o ++ o2, err2)

/-- Work-experience section (lines 102-112). -/
def experienceSection (fs : List (String × Json)) : List Out × Bool :=
  let v := dictGetD fs "experience" .null
  if v.truthy then
    match pyIterate v with
    | some es =>
        let (o, err) := entriesLoop expEntrySection es
        (.subheader "💼 Work Experience" :: o, err)
    | none => ([.subheader "💼 Work Experience"], true)
  else ([], false)

/-- One education entry (lines 117-121): `.get` raises unless it is a dict. -/
def eduEntrySection (e : Json) : List Out × Bool :=
  match e with
  | .obj fs =>
      ([ .write ("**" ++ pyStr (dictGetD fs "degree" (.str "Degree")) ++ "**"),
         .write ("- Institution: " ++ pyStr (dictGetD fs "institution" (.str "N/A"))),
         .write ("- Location: " ++ pyStr (dictGetD fs "location" (.str "N/A"))),
         .write ("- Completion Date: " ++ pyStr (dictGetD fs "date" (.str "N/A"))) ], false)
  | _ => ([], true)

/-- Education section (lines 114-121). -/
def educationSection (fs : List (String × Json)) : List Out × Bool :=
  let v := dictGetD fs "education" .null
  if v.truthy then
    match pyIterate v with
    | some es =>
        let (o, err) := entriesLoop eduEntrySection es
        (.subheader "🎓 Education" :: o, err)
    | none => ([.subheader "🎓 Education"], true)
  else ([], false)

/-- Languages section (lines 123-126): `", ".join(...)` raises unless the
value is an iterable of strings. -/
def languagesSection (fs : List (String × Json)) : List Out × Bool :=
  let v := dictGetD fs "languages" .null
  if v.truthy then
    match pyJoinStrs ", " v with
    | some s => ([.subheader "🗣 Languages", .write s], false)
    | none => ([.subheader "🗣 Languages"], true)
  else ([], false)

/-- A bulleted section over an iterable value (certificates, lines 128-132;
visas, lines 134-138). -/
def bulletListSection (hdr key : String) (fs : List (String × Json)) : List Out × Bool :=
  let v := dictGetD fs key .null
  if v.truthy then
    match pyIterate v with
    | some items => (.subheader hdr :: items.map (fun i => .write ("- " ++ pyStr i)), false)
    | none => ([.subheader hdr], true)
  else ([], false)

/-- Certificates section (lines 128-132). -/
def certificatesSection (fs : List (String × Json)) : List Out × Bool :=
  bulletListSection "📜 Certificates" "certificates" fs

/-- Visas section (lines 134-138). -/
def visasSection (fs : List (String × Json)) : List Out × Bool :=
  bulletListSection "🛂 Work Visas" "visas" fs

/-- Run the sections in order, stopping at the first raise. -/
def chainSections : List (List Out × Bool) → List Out × Bool
  | [] => ([], false)
  | (o, err) :: rest =>
      if err then (o, true)
      else
        let (o2, e2) := chainSections rest
        (o ++ o2, e2)

/-- `display_formatted_resume` (lines 77-138).  `info` is the stored JSON
value; a non-dict raises at the first `.get` (line 91), after the title and the
basic-information subheader have been rendered. -/
def display_formatted_resume (info : Json) (filename : String) : List Out × Bool :=
  let head : List Out :=
    [.title ("Resume Analysis: " ++ filename), .subheader "📌 Basic Information"]
  match info with
  | .obj fs =>
      let (rest, err) := chainSections
        [ summarySection fs, experienceSection fs, educationSection fs,
          languagesSection fs, certificatesSection fs, visasSection fs ]
      (head ++ basicInfoOuts fs ++ rest, err)
  | _ => (head, true)

/-! ### Session store and process_uploaded_files (app.py lines 140-152)

`st.session_state['extracted_data']` is a Python dict from file name to the
extracted JSON value: an insertion-ordered association list with unique keys.
The guard on line 141 that creates the dict when absent is modelled by passing
the store explicitly (an absent mapping and an empty mapping behave alike in
every use site). -/

/-- The session mapping file name → extracted record. -/
abbrev Store := List (String × Json)

/-- Python `name in d`. -/
def Store.hasKey (st : Store) (n : String) : Bool := st.any (fun p => p.1 == n)

/-- Python `d[n] = v`: update in place if the key exists, else append. -/
def Store.assign : Store → String → Json → Store
  | [], n, v => [(n, v)]
  | (k, w) :: rest, n, v =>
      if k == n then (k, v) :: rest else (k, w) :: Store.assign rest n v

/-- Python `list(d.keys())`. -/
def Store.keys (st : Store) : List String := st.map Prod.fst

/-- Python `d[n]` as an `Option`. -/
def Store.lookup (st : Store) (n : String) : Option Json := dictGet st n

/-- The `new_files` filter (line 144):
`[f for f in files if f.name not in st.session_state['extracted_data']]`. -/
def filterNew (st : Store) (files : List UploadedFile) : List UploadedFile :=
  files.filter (fun f => !(st.hasKey f.name))

/-- The body of the `for file in new_files` loop (lines 146-152) for one file:
run `extract_text`; if the text is truthy run `extract_information`; if the
result is truthy store it under the file's name. -/
def pufStep (llm : ChatRequest → LLMResult) (f : UploadedFile) (st : Store) :
    Store × List Ev :=
  let (text, ms1) := extract_text f
  let evs1 := Ev.callExtractText f.name :: ms1.map Ev.message
  if text.data.isEmpty then (st, evs1)
  else
    let (info, ms2, _) := extract_information text llm
    let evs2 := Ev.callExtractInfo f.name :: ms2.map Ev.message
    if info.truthy then (st.assign f.name info, evs1 ++ evs2 ++ [Ev.stored f.name])
    else (st, evs1 ++ evs2)

/-- The `for file in new_files` loop (lines 146-152). -/
def pufLoop (llm : ChatRequest → LLMResult) : List UploadedFile → Store → Store × List Ev
  | [], st => (st, [])
  | f :: rest, st =>
      let (st1, e1) := pufStep llm f st
      let (st2, e2) := pufLoop llm rest st1
      (st2, e1 ++ e2)

/-- `process_uploaded_files` (lines 140-152). -/
def process_uploaded_files (files : List UploadedFile)
    (llm : ChatRequest → LLMResult) (st : Store) : Store × List Ev :=
  pufLoop llm (filterNew st files) st

/-! ### main (app.py lines 154-191) -/

/-- The main-content render step (lines 176-191): if the store is non-empty the
selectbox defaults to the first processed file name, which is displayed; the
session store is not touched. -/
def mainContent (st : Store) : List Ev :=
  match (Store.keys st).head? with
  | some sel =>
      if sel.data.isEmpty then []
      else ((display_formatted_resume ((st.lookup sel).getD .null) sel).1).map Ev.rendered
  | none => [Ev.rendered (.write "Upload resumes in the sidebar to begin analysis.")]

/-- `main` (lines 154-191) for one script run: `apiKey` is the text-input
value (`""` when the user entered nothing), `uploadedFiles` the uploader value
(`[]` when `None`).  An empty key warns and returns at once (lines 165-167);
otherwise uploaded files are processed and the selected resume displayed. -/
def mainRun (apiKey : String) (uploadedFiles : List UploadedFile)
    (llm : ChatRequest → LLMResult) (st0 : Store) : Store × List Ev :=
  if apiKey.data.isEmpty then (st0, [Ev.message Msg.apiKeyWarning])
  else
    let (st1, evs1) :=
      if uploadedFiles.isEmpty then (st0, [])
      else
        let (st2, evs2) := process_uploaded_files uploadedFiles llm st0
        (st2, Ev.newParser :: evs2)
    (st1, evs1 ++ mainContent st1)

/-- The repeated-viewing step of `main` (lines 187-189): look up the selected
record and display it; returns the session store it leaves behind. -/
def viewResume (st : Store) (sel : String) : Store × (List Out × Bool) :=
  (st, display_formatted_resume ((st.lookup sel).getD .null) sel)

/-! ### Typed extracted records

The spec's ExtractedRecord data model (§3): fixed optional fields with the
declared shapes, under the keys the source actually uses (the date-of-birth
key is `dob` throughout app.py).  `toJson` injects a typed record into the
JSON-object form in which records are stored and displayed; a missing optional
field has no key. -/

/-- One education entry: `{institution, location, degree, date}`. -/
structure EduEntry where
  institution : Option String
  location : Option String
  degree : Option String
  date : Option String

/-- One experience entry: `{company_name, position, duration, job_description}`. -/
structure ExpEntry where
  company_name : Option String
  position : Option String
  duration : Option String
  job_description : Option String

/-- A record with the fixed optional fields of the spec's data model. -/
structure ExtractedRecord where
  name : Option String
  education : Option (List EduEntry)
  nationality : Option String
  dob : Option String
  languages : Option (List String)
  location : Option String
  experience : Option (List ExpEntry)
  certificates : Option (List String)
  visas : Option (List String)
  summary : Option String

/-- A field binding when the field is present, nothing when absent. -/
def optField (k : String) : Option Json → List (String × Json)
  | some j => [(k, j)]
  | none => []

/-- JSON form of an education entry. -/
def EduEntry.toJson (e : EduEntry) : Json :=
  .obj (optField "institution" (e.institution.map .str) ++
        optField "location" (e.location.map .str) ++
        optField "degree" (e.degree.map .str) ++
        optField "date" (e.date.map .str))

/-- JSON form of an experience entry. -/
def ExpEntry.toJson (e : ExpEntry) : Json :=
  .obj (optField "company_name" (e.company_name.map .str) ++
        optField "position" (e.position.map .str) ++
        optField "duration" (e.duration.map .str) ++
        optField "job_description" (e.job_description.map .str))

/-- The field list of a typed record's JSON-object form. -/
def ExtractedRecord.fieldsJson (r : ExtractedRecord) : List (String × Json) :=
  optField "name" (r.name.map .str) ++
  optField "education" (r.education.map (fun l => .arr (l.map EduEntry.toJson))) ++
  optField "nationality" (r.nationality.map .str) ++
  optField "dob" (r.dob.map .str) ++
  optField "languages" (r.languages.map (fun l => .arr (l.map .str))) ++
  optField "location" (r.location.map .str) ++
  optField "experience" (r.experience.map (fun l => .arr (l.map ExpEntry.toJson))) ++
  optField "certificates" (r.certificates.map (fun l => .arr (l.map .str))) ++
  optField "visas" (r.visas.map (fun l => .arr (l.map .str))) ++
  optField "summary" (r.summary.map .str)

/-- JSON form of a typed record. -/
def ExtractedRecord.toJson (r : ExtractedRecord) : Json := .obj r.fieldsJson

/-! ### Concrete fixtures used by counterexamples and witnesses -/

/-- The field list of the spec's data model, as claim C3 states it. -/
def specFieldNames : List String :=
  ["name", "education", "nationality", "date_of_birth", "languages", "location",
   "experience", "certificates", "visas", "summary"]

/-- Count of occurrences of a given message in an event trace. -/
def msgCount (m : Msg) (evs : List Ev) : Nat :=
  evs.countP (fun e => e == Ev.message m)

/-- A well-formed PDF upload whose pages read `"t1"`. -/
def fileA1 : UploadedFile := ⟨"a.pdf", fun _ => some "t1"⟩

/-- A second upload with the same file name whose pages read `"t2"`. -/
def fileA2 : UploadedFile := ⟨"a.pdf", fun _ => some "t2"⟩

/-- An LLM oracle that answers the two prompts of `fileA1`/`fileA2` with
distinct records. -/
def llmAB : ChatRequest → LLMResult := fun req =>
  if req = chatRequestFor "t1" then .parsed (.obj [("name", .str "A")])
  else .parsed (.obj [("name", .str "B")])

/-- A well-formed PDF upload whose pages read `"tt"`. -/
def fileB : UploadedFile := ⟨"b.pdf", fun _ => some "tt"⟩

/-- An LLM oracle whose service call always raises. -/
def llmFail : ChatRequest → LLMResult := fun _ => .apiError

/-- An LLM oracle that replies with valid JSON carrying a key outside the fixed
field list. -/
def llmFoo : ChatRequest → LLMResult := fun _ => .parsed (.obj [("foo", .str "bar")])

/-- An upload whose name passes the lowercased extension check as a Word
document but, not ending in `.docx`/`.doc` verbatim, is opened as a PDF; the
parse oracle reports which filetype the document was opened with. -/
def fileCaps : UploadedFile :=
  ⟨"resume.DOCX", fun ft => if ft = "docx" then some "opened as docx" else some "opened as pdf"⟩

/-- No element of `outs` is a section subheader. -/
def noSubheaders (outs : List Out) : Prop := ∀ s, Out.subheader s ∉ outs

/-- Shape of one display section: it raises nothing, emits no subheader other
than its own `t`, and emits `t` exactly when `cond` holds. -/
def sectionShape (t : String) (cond : Prop) (sec : List Out × Bool) : Prop :=
  sec.2 = false ∧ (∀ s, s ≠ t → Out.subheader s ∉ sec.1) ∧ (Out.subheader t ∈ sec.1 ↔ cond)

/-- A typed record with no name and one work experience, used to instantiate
the presentation-layer theorem. -/
def sampleRecord : ExtractedRecord :=
  ⟨none, none, none, none, none, none,
   some [⟨some "Acme Corp", some "Software Engineer", some "2019-2022", some "Built things"⟩],
   none, none, none⟩

/-- A store that already holds a record for `a.pdf`. -/
def storeA : Store := [("a.pdf", Json.obj [("name", Json.str "A")])]

/-- An upload with an unsupported extension. -/
def fileTxt : UploadedFile := ⟨"notes.txt", fun _ => some "plain text"⟩

/-- An upload on which document parsing raises whatever the filetype. -/
def fileBroken : UploadedFile := ⟨"broken.pdf", fun _ => none⟩

/-! ## Store lemmas -/

theorem lookup_nil (k : String) : Store.lookup [] k = none := rfl

theorem lookup_cons (m : String) (w : Json) (rest : Store) (k : String) :
    Store.lookup ((m, w) :: rest) k = if m = k then some w else Store.lookup rest k := by
  by_cases h : m = k
  · simp [Store.lookup, dictGet, List.find?, h]
  · simp [Store.lookup, dictGet, List.find?, h, beq_eq_false_iff_ne.mpr h]

theorem hasKey_nil (k : String) : Store.hasKey [] k = false := rfl

theorem hasKey_cons (m : String) (w : Json) (rest : Store) (k : String) :
    (Store.hasKey ((m, w) :: rest) k = true) ↔ (m = k ∨ Store.hasKey rest k = true) := by
  simp [Store.hasKey, List.any_cons, beq_iff_eq]

theorem assign_nil (n : String) (v : Json) : Store.assign [] n v = [(n, v)] := rfl

theorem assign_cons_eq (m n : String) (w v : Json) (rest : Store) (h : m = n) :
    Store.assign ((m, w) :: rest) n v = (m, v) :: rest := by
  simp [Store.assign, h]

theorem assign_cons_ne (m n : String) (w v : Json) (rest : Store) (h : m ≠ n) :
    Store.assign ((m, w) :: rest) n v = (m, w) :: Store.assign rest n v := by
  simp [Store.assign, beq_eq_false_iff_ne.mpr h]

theorem hasKey_iff (st : Store) (k : String) :
    st.hasKey k = true ↔ k ∈ st.keys := by
  induction st with
  | nil => simp [hasKey_nil, Store.keys]
  | cons p rest ih =>
      rcases p with ⟨m, w⟩
      rw [hasKey_cons]
      simp [Store.keys] at ih ⊢
      rw [ih]
      constructor
      · rintro (h | h)
        · exact Or.inl h.symm
        · exact Or.inr h
      · rintro (h | h)
        · exact Or.inl h.symm
        · exact Or.inr h

theorem hasKey_assign (st : Store) (n : String) (v : Json) (k : String) :
    ((st.assign n v).hasKey k = true) ↔ (st.hasKey k = true ∨ n = k) := by
  induction st with
  | nil =>
      rw [assign_nil]
      simp [hasKey_nil, hasKey_cons]
  | cons p rest ih =>
      rcases p with ⟨m, w⟩
      by_cases hmn : m = n
      · rw [assign_cons_eq m n w v rest hmn, hasKey_cons, hasKey_cons, hmn]
        tauto
      · rw [assign_cons_ne m n w v rest hmn, hasKey_cons, hasKey_cons, ih]
        tauto

theorem lookup_assign (st : Store) (n : String) (v : Json) (k : String) :
    (st.assign n v).lookup k = if n = k then some v else st.lookup k := by
  induction st with
  | nil =>
      rw [assign_nil, lookup_cons, lookup_nil]
  | cons p rest ih =>
      rcases p with ⟨m, w⟩
      by_cases hmn : m = n
      · subst hmn
        rw [assign_cons_eq m m w v rest rfl, lookup_cons, lookup_cons]
        by_cases hmk : m = k <;> simp [hmk]
      · rw [assign_cons_ne m n w v rest hmn, lookup_cons, lookup_cons, ih]
        by_cases hmk : m = k
        · subst hmk
          rw [if_pos rfl, if_neg (fun h : n = m => hmn h.symm), if_pos rfl]
        · rw [if_neg hmk]
          by_cases hnk : n = k
          · rw [if_pos hnk, if_pos hnk]
          · rw [if_neg hnk, if_neg hnk, if_neg hmk]

theorem keys_assign_of_hasKey (st : Store) (n : String) (v : Json)
    (h : st.hasKey n = true) : (st.assign n v).keys = st.keys := by
  induction st with
  | nil => simp [hasKey_nil] at h
  | cons p rest ih =>
      rcases p with ⟨m, w⟩
      by_cases hmn : m = n
      · rw [assign_cons_eq m n w v rest hmn]
        simp [Store.keys]
      · rw [assign_cons_ne m n w v rest hmn]
        rcases (hasKey_cons m w rest n).mp h with hc | hc
        · exact absurd hc hmn
        · simp [Store.keys] at ih ⊢
          exact ih hc

theorem keys_assign_of_new (st : Store) (n : String) (v : Json)
    (h : st.hasKey n = false) : (st.assign n v).keys = st.keys ++ [n] := by
  induction st with
  | nil => simp [assign_nil, Store.keys]
  | cons p rest ih =>
      rcases p with ⟨m, w⟩
      have hmn : m ≠ n := by
        intro hc
        exact absurd ((hasKey_cons m w rest n).mpr (Or.inl hc)) (by simp [h])
      have hrest : Store.hasKey rest n = false := by
        rcases hr : Store.hasKey rest n with _ | _
        · rfl
        · exact absurd ((hasKey_cons m w rest n).mpr (Or.inr hr)) (by simp [h])
      rw [assign_cons_ne m n w v rest hmn]
      simp [Store.keys] at ih ⊢
      exact ih hrest

theorem keys_nodup_assign (st : Store) (n : String) (v : Json)
    (h : st.keys.Nodup) : (st.assign n v).keys.Nodup := by
  rcases hk : st.hasKey n with _ | _
  · rw [keys_assign_of_new st n v hk]
    simp [List.nodup_append, h]
    intro hmem
    exact absurd ((hasKey_iff st n).mpr hmem) (by simp [hk])
  · rw [keys_assign_of_hasKey st n v hk]
    exact h

/-! ## Processing-loop lemmas -/

theorem extract_text_unsupported (f : UploadedFile) (h : acceptedExt f.name = false) :
    extract_text f = ("", [Msg.unsupportedFormat]) := by
  simp [extract_text, h]

theorem extract_text_accepted (f : UploadedFile) (h : acceptedExt f.name = true) :
    extract_text f = extract_text_from_file f := by
  simp [extract_text, h]

theorem pufStep_eq (llm : ChatRequest → LLMResult) (f : UploadedFile) (st : Store) :
    pufStep llm f st =
      if (extract_text f).1.data.isEmpty then
        (st, Ev.callExtractText f.name :: (extract_text f).2.map Ev.message)
      else if (extract_information (extract_text f).1 llm).1.truthy then
        (st.assign f.name (extract_information (extract_text f).1 llm).1,
          (Ev.callExtractText f.name :: (extract_text f).2.map Ev.message) ++
            (Ev.callExtractInfo f.name ::
              (extract_information (extract_text f).1 llm).2.1.map Ev.message) ++
            [Ev.stored f.name])
      else
        (st, (Ev.callExtractText f.name :: (extract_text f).2.map Ev.message) ++
          (Ev.callExtractInfo f.name ::
            (extract_information (extract_text f).1 llm).2.1.map Ev.message)) := rfl

theorem pufStep_hasKey_eq (llm : ChatRequest → LLMResult) (f : UploadedFile)
    (st : Store) (k : String)
    (h : f.name = k → (extract_text f).1.data.isEmpty = true) :
    ((pufStep llm f st).1).hasKey k = st.hasKey k := by
  rw [pufStep_eq]
  split_ifs with h1 h2
  · rfl
  · have hne : f.name ≠ k := fun hc => by simp [h hc] at h1
    simp only
    rw [Bool.eq_iff_iff]
    rw [hasKey_assign]
    constructor
    · rintro (hc | hc)
      · exact hc
      · exact absurd hc hne
    · exact Or.inl
  · rfl

theorem pufStep_hasKey_mono (llm : ChatRequest → LLMResult) (f : UploadedFile)
    (st : Store) (k : String) (h : st.hasKey k = true) :
    ((pufStep llm f st).1).hasKey k = true := by
  rw [pufStep_eq]
  split_ifs with h1 h2
  · exact h
  · exact (hasKey_assign st f.name _ k).mpr (Or.inl h)
  · exact h

theorem pufStep_lookup_ne (llm : ChatRequest → LLMResult) (f : UploadedFile)
    (st : Store) (k : String) (h : f.name ≠ k) :
    ((pufStep llm f st).1).lookup k = st.lookup k := by
  rw [pufStep_eq]
  split_ifs with h1 h2
  · rfl
  · simp only
    rw [lookup_assign, if_neg h]
  · rfl

theorem pufStep_keys_nodup (llm : ChatRequest → LLMResult) (f : UploadedFile)
    (st : Store) (h : st.keys.Nodup) : ((pufStep llm f st).1).keys.Nodup := by
  rw [pufStep_eq]
  split_ifs with h1 h2
  · exact h
  · exact keys_nodup_assign st f.name _ h
  · exact h

theorem pufStep_mem_callET (llm : ChatRequest → LLMResult) (f : UploadedFile)
    (st : Store) (n : String) (h : Ev.callExtractText n ∈ (pufStep llm f st).2) :
    n = f.name := by
  rw [pufStep_eq] at h
  split_ifs at h <;> simp at h <;> tauto

theorem pufStep_mem_callInfo (llm : ChatRequest → LLMResult) (f : UploadedFile)
    (st : Store) (n : String) (h : Ev.callExtractInfo n ∈ (pufStep llm f st).2) :
    n = f.name ∧ (extract_text f).1.data.isEmpty = false := by
  rw [pufStep_eq] at h
  split_ifs at h with h1 h2 <;> simp at h <;> simp_all

theorem pufStep_unsupported (llm : ChatRequest → LLMResult) (f : UploadedFile)
    (st : Store) (h : acceptedExt f.name = false) :
    pufStep llm f st = (st, [Ev.callExtractText f.name, Ev.message Msg.unsupportedFormat]) := by
  rw [pufStep_eq, extract_text_unsupported f h]
  simp

theorem pufStep_parse_failure (llm : ChatRequest → LLMResult) (f : UploadedFile)
    (st : Store) (hacc : acceptedExt f.name = true)
    (hfail : f.parse (chosenFiletype f.name) = none) :
    pufStep llm f st = (st, [Ev.callExtractText f.name, Ev.message Msg.extractTextError]) := by
  rw [pufStep_eq, extract_text_accepted f hacc]
  simp [extract_text_from_file, hfail]

theorem pufLoop_append (llm : ChatRequest → LLMResult) (fs1 fs2 : List UploadedFile)
    (st : Store) :
    pufLoop llm (fs1 ++ fs2) st =
      ((pufLoop llm fs2 (pufLoop llm fs1 st).1).1,
        (pufLoop llm fs1 st).2 ++ (pufLoop llm fs2 (pufLoop llm fs1 st).1).2) := by
  induction fs1 generalizing st with
  | nil => simp [pufLoop]
  | cons f rest ih =>
      simp only [List.cons_append, pufLoop, List.append_eq]
      rw [ih]
      simp [List.append_assoc]

theorem pufLoop_hasKey_mono (llm : ChatRequest → LLMResult) (fs : List UploadedFile)
    (st : Store) (k : String) (h : st.hasKey k = true) :
    ((pufLoop llm fs st).1).hasKey k = true := by
  induction fs generalizing st with
  | nil => exact h
  | cons f rest ih =>
      simp only [pufLoop]
      exact ih _ (pufStep_hasKey_mono llm f st k h)

theorem pufLoop_hasKey_eq (llm : ChatRequest → LLMResult) (fs : List UploadedFile)
    (st : Store) (k : String)
    (h : ∀ f ∈ fs, f.name = k → (extract_text f).1.data.isEmpty = true) :
    ((pufLoop llm fs st).1).hasKey k = st.hasKey k := by
  induction fs generalizing st with
  | nil => rfl
  | cons f rest ih =>
      simp only [pufLoop]
      rw [ih _ (fun g hg => h g (List.mem_cons_of_mem f hg)),
        pufStep_hasKey_eq llm f st k (h f (List.mem_cons_self f rest))]

theorem pufLoop_lookup_ne (llm : ChatRequest → LLMResult) (fs : List UploadedFile)
    (st : Store) (k : String) (h : ∀ f ∈ fs, f.name ≠ k) :
    ((pufLoop llm fs st).1).lookup k = st.lookup k := by
  induction fs generalizing st with
  | nil => rfl
  | cons f rest ih =>
      simp only [pufLoop]
      rw [ih _ (fun g hg => h g (List.mem_cons_of_mem f hg)),
        pufStep_lookup_ne llm f st k (h f (List.mem_cons_self f rest))]

theorem pufLoop_keys_nodup (llm : ChatRequest → LLMResult) (fs : List UploadedFile)
    (st : Store) (h : st.keys.Nodup) : ((pufLoop llm fs st).1).keys.Nodup := by
  induction fs generalizing st with
  | nil => exact h
  | cons f rest ih =>
      simp only [pufLoop]
      exact ih _ (pufStep_keys_nodup llm f st h)

theorem pufLoop_mem_callET (llm : ChatRequest → LLMResult) (fs : List UploadedFile)
    (st : Store) (n : String) (h : Ev.callExtractText n ∈ (pufLoop llm fs st).2) :
    ∃ f ∈ fs, f.name = n := by
  induction fs generalizing st with
  | nil => simp [pufLoop] at h
  | cons f rest ih =>
      simp only [pufLoop, List.mem_append] at h
      rcases h with h | h
      · exact ⟨f, List.mem_cons_self f rest, (pufStep_mem_callET llm f st n h).symm⟩
      · rcases ih _ h with ⟨g, hg, hgn⟩
        exact ⟨g, List.mem_cons_of_mem f hg, hgn⟩

theorem pufLoop_mem_callInfo (llm : ChatRequest → LLMResult) (fs : List UploadedFile)
    (st : Store) (n : String) (h : Ev.callExtractInfo n ∈ (pufLoop llm fs st).2) :
    ∃ f ∈ fs, f.name = n ∧ (extract_text f).1.data.isEmpty = false := by
  induction fs generalizing st with
  | nil => simp [pufLoop] at h
  | cons f rest ih =>
      simp only [pufLoop, List.mem_append] at h
      rcases h with h | h
      · rcases pufStep_mem_callInfo llm f st n h with ⟨h1, h2⟩
        exact ⟨f, List.mem_cons_self f rest, h1.symm, h2⟩
      · rcases ih _ h with ⟨g, hg, hgn⟩
        exact ⟨g, List.mem_cons_of_mem f hg, hgn⟩

theorem mem_filterNew (st : Store) (fs : List UploadedFile) (f : UploadedFile) :
    f ∈ filterNew st fs ↔ f ∈ fs ∧ st.hasKey f.name = false := by
  simp [filterNew, List.mem_filter, Bool.not_eq_true']

/-! ## Claim theorems -/

/-- C7: if the user-supplied API key is absent, `main` emits the warning and
performs no further action — no `ResumeParser` is constructed, no file is read
(`extract_text` is never invoked), and the session store is unchanged. -/
theorem c7_empty_api_key_halts (files : List UploadedFile)
    (llm : ChatRequest → LLMResult) (st0 : Store) :
    mainRun "" files llm st0 = (st0, [Ev.message Msg.apiKeyWarning])
    ∧ Ev.newParser ∉ (mainRun "" files llm st0).2
    ∧ (∀ n, Ev.callExtractText n ∉ (mainRun "" files llm st0).2)
    ∧ (mainRun "" files llm st0).1 = st0 := by
  have h : mainRun "" files llm st0 = (st0, [Ev.message Msg.apiKeyWarning]) := rfl
  refine ⟨h, ?_, ?_, ?_⟩ <;> simp [h]

/-- C9: rendering is pure with respect to the session store: the viewing step
of `main` (lines 187-189) leaves the store — and hence the stored record —
unchanged, no matter how many times the selected resume is displayed. -/
theorem c9_display_pure (st : Store) (sel : String) :
    (viewResume st sel).1 = st
    ∧ ∀ k : Nat, (fun s => (viewResume s sel).1)^[k] st = st := by
  refine ⟨rfl, ?_⟩
  intro k
  induction k with
  | zero => rfl
  | succ n ih =>
      rw [Function.iterate_succ_apply]
      exact ih

/-- C10: the extension acceptance of `extract_text` lowercases the name while
the filetype dispatch of `extract_text_from_file` does not, so a name ending
in `.DOCX` is accepted but the document is opened with filetype `"pdf"`. -/
theorem c10_case_mismatch_dispatch :
    (∀ f : UploadedFile, acceptedExt f.name = true → extract_text f = extract_text_from_file f)
    ∧ (∀ nm : String, chosenFiletype nm = "docx" ↔
        (pyEndsWith nm ".docx" = true ∨ pyEndsWith nm ".doc" = true))
    ∧ acceptedExt "resume.DOCX" = true
    ∧ chosenFiletype "resume.DOCX" = "pdf"
    ∧ extract_text fileCaps = ("opened as pdf", []) := by
  refine ⟨fun f h => extract_text_accepted f h, ?_, by decide, by decide, by decide⟩
  intro nm
  constructor
  · intro h
    by_cases h1 : pyEndsWith nm ".docx" = true
    · exact Or.inl h1
    · by_cases h2 : pyEndsWith nm ".doc" = true
      · exact Or.inr h2
      · exfalso
        rw [chosenFiletype, if_neg (by simp [Bool.not_eq_true] at h1 h2 ⊢; exact ⟨h1, h2⟩)] at h
        exact absurd h (by decide)
  · rintro (h | h) <;> simp [chosenFiletype, h]

/-- Witness for C10 at concrete inputs. -/
theorem c10_case_mismatch_dispatch_witness :
    extract_text fileCaps = extract_text_from_file fileCaps
    ∧ chosenFiletype "a.doc" = "docx" := by
  refine ⟨c10_case_mismatch_dispatch.1 fileCaps (by decide), ?_⟩
  exact (c10_case_mismatch_dispatch.2.1 "a.doc").mpr (Or.inr (by decide))

/-- C3 counterexample: `extract_information` does not validate the parsed
JSON — when the service replies `{"foo": "bar"}` the returned record is
non-empty and carries a key outside the fixed field list. -/
theorem c3_counterexample :
    (extract_information "resume text" llmFoo).1 = Json.obj [("foo", Json.str "bar")]
    ∧ Json.obj [("foo", Json.str "bar")] ≠ Json.obj []
    ∧ "foo" ∉ specFieldNames := by
  refine ⟨rfl, by simp, by decide⟩

/-- C3 amended: for every input text and every possible service outcome,
`extract_information` either returns the parsed JSON value unvalidated — its
keys need not lie in the fixed field list — or returns the empty record with a
non-fatal message; in both cases it returns normally rather than raising. -/
theorem c3_amended_unvalidated_or_empty (t : String) (llm : ChatRequest → LLMResult) :
    (∃ j, llm (chatRequestFor t) = .parsed j
        ∧ extract_information t llm = (j, [], [chatRequestFor t]))
    ∨ extract_information t llm = (Json.obj [], [Msg.extractInfoError], [chatRequestFor t]) := by
  rcases h : llm (chatRequestFor t) with _ | raw | j
  · right; simp [extract_information, h]
  · right; simp [extract_information, h]
  · left
    refine ⟨j, rfl, ?_⟩
    simp [extract_information, h]

/-- C8: `extract_information` sends exactly one request, whose response format
is JSON-constrained, whose single user message is the prompt; the prompt embeds
the resume text verbatim between the fixed lead and tail, and the fixed lead
contains the leave-empty instruction and every field of the field list. -/
theorem c8_prompt_and_single_request (t : String) (llm : ChatRequest → LLMResult) :
    (extract_information t llm).2.2 = [chatRequestFor t]
    ∧ chatRequestFor t = ⟨"gpt-4o-mini", [("user", promptFor t)], "json_object"⟩
    ∧ promptFor t = promptLead ++ t ++ promptTail
    ∧ (∃ a b, promptFor t = a ++ t ++ b)
    ∧ containsStr promptLead "leave it empty" = true
    ∧ (promptFieldNames.all fun fn => containsStr promptLead ("- " ++ fn ++ ": ")) = true := by
  refine ⟨?_, rfl, rfl, ⟨promptLead, promptTail, rfl⟩, by decide, by decide⟩
  rcases h : llm (chatRequestFor t) with _ | raw | j <;> simp [extract_information, h]

theorem chatRequestFor_inj (a b : String) (h : chatRequestFor a = chatRequestFor b) :
    a = b := by
  simp only [chatRequestFor, ChatRequest.mk.injEq, List.cons.injEq, Prod.mk.injEq, and_true,
    true_and] at h
  simp only [promptFor] at h
  have hd := congrArg String.data h
  simp only [String.data_append] at hd
  have h2 := List.append_cancel_left (List.append_cancel_right hd)
  cases a
  cases b
  exact congrArg String.mk h2

theorem llmAB_t1 : llmAB (chatRequestFor "t1") = .parsed (Json.obj [("name", Json.str "A")]) := by
  simp [llmAB]

theorem llmAB_t2 : llmAB (chatRequestFor "t2") = .parsed (Json.obj [("name", Json.str "B")]) := by
  simp only [llmAB]
  rw [if_neg]
  intro h
  exact absurd (chatRequestFor_inj _ _ h) (by decide)

theorem pufStep_fileA1 :
    pufStep llmAB fileA1 []
      = ([("a.pdf", Json.obj [("name", Json.str "A")])],
         [Ev.callExtractText "a.pdf", Ev.callExtractInfo "a.pdf", Ev.stored "a.pdf"]) := by
  have hET : extract_text fileA1 = ("t1", []) := rfl
  have hEI : extract_information "t1" llmAB
      = (Json.obj [("name", Json.str "A")], [], [chatRequestFor "t1"]) := by
    simp [extract_information, llmAB_t1]
  rw [pufStep_eq, hET]
  simp [hEI, Json.truthy, Store.assign, fileA1]

theorem pufStep_fileA2 :
    pufStep llmAB fileA2 [("a.pdf", Json.obj [("name", Json.str "A")])]
      = ([("a.pdf", Json.obj [("name", Json.str "B")])],
         [Ev.callExtractText "a.pdf", Ev.callExtractInfo "a.pdf", Ev.stored "a.pdf"]) := by
  have hET : extract_text fileA2 = ("t2", []) := rfl
  have hEI : extract_information "t2" llmAB
      = (Json.obj [("name", Json.str "B")], [], [chatRequestFor "t2"]) := by
    simp [extract_information, llmAB_t2]
  rw [pufStep_eq, hET]
  simp [hEI, Json.truthy, Store.assign, fileA2]

theorem run_fileA_twice :
    process_uploaded_files [fileA1, fileA2] llmAB []
      = ([("a.pdf", Json.obj [("name", Json.str "B")])],
         [Ev.callExtractText "a.pdf", Ev.callExtractInfo "a.pdf", Ev.stored "a.pdf",
          Ev.callExtractText "a.pdf", Ev.callExtractInfo "a.pdf", Ev.stored "a.pdf"]) := by
  have hfilter : filterNew [] [fileA1, fileA2] = [fileA1, fileA2] := rfl
  simp only [process_uploaded_files, hfilter, pufLoop, pufStep_fileA1, pufStep_fileA2]
  rfl

/-- C1 counterexample: one upload event containing two files that share the
name `a.pdf` re-extracts the name after it has been stored and overwrites the
stored entry — the trace stores `a.pdf` and afterwards still calls
`extract_text`/`extract_information` for it, and the final record (from the
second file) differs from the one first stored. -/
theorem c1_counterexample :
    (process_uploaded_files [fileA1, fileA2] llmAB []).2
      = [Ev.callExtractText "a.pdf", Ev.callExtractInfo "a.pdf", Ev.stored "a.pdf",
         Ev.callExtractText "a.pdf", Ev.callExtractInfo "a.pdf", Ev.stored "a.pdf"]
    ∧ (∃ e1 e2, (process_uploaded_files [fileA1, fileA2] llmAB []).2
          = e1 ++ Ev.stored "a.pdf" :: e2
        ∧ Ev.callExtractText "a.pdf" ∈ e2 ∧ Ev.callExtractInfo "a.pdf" ∈ e2)
    ∧ (process_uploaded_files [fileA1, fileA2] llmAB []).1
        = [("a.pdf", Json.obj [("name", Json.str "B")])]
    ∧ (pufLoop llmAB [fileA1] []).1 = [("a.pdf", Json.obj [("name", Json.str "A")])] := by
  have h2 : (pufLoop llmAB [fileA1] []).1
      = [("a.pdf", Json.obj [("name", Json.str "A")])] := by
    simp [pufLoop, pufStep_fileA1]
  refine ⟨by rw [run_fileA_twice], ?_, by rw [run_fileA_twice], h2⟩
  refine ⟨[Ev.callExtractText "a.pdf", Ev.callExtractInfo "a.pdf"],
    [Ev.callExtractText "a.pdf", Ev.callExtractInfo "a.pdf", Ev.stored "a.pdf"],
    by rw [run_fileA_twice]; rfl, by decide, by decide⟩

/-- C1 amended: within one upload event, a file whose name is a key of the
session mapping **when the event starts** is neither re-extracted nor
re-stored: no `extract_text` or `extract_information` call is made for such a
name, its entry keeps its value, entries present at the start survive, and key
uniqueness is preserved.  (Two files sharing a new name inside the same event
are each processed, the later overwriting the earlier — see the
counterexample.) -/
theorem c1_amended_skip_preexisting (files : List UploadedFile)
    (llm : ChatRequest → LLMResult) (st0 : Store) :
    (∀ n, st0.hasKey n = true →
        Ev.callExtractText n ∉ (process_uploaded_files files llm st0).2
        ∧ Ev.callExtractInfo n ∉ (process_uploaded_files files llm st0).2
        ∧ (process_uploaded_files files llm st0).1.lookup n = st0.lookup n
        ∧ (process_uploaded_files files llm st0).1.hasKey n = true)
    ∧ (st0.keys.Nodup → (process_uploaded_files files llm st0).1.keys.Nodup) := by
  simp only [process_uploaded_files]
  constructor
  · intro n hn
    have hnotin : ∀ f ∈ filterNew st0 files, f.name ≠ n := by
      intro f hf hc
      have hfalse := ((mem_filterNew st0 files f).mp hf).2
      rw [hc, hn] at hfalse
      exact Bool.noConfusion hfalse
    refine ⟨?_, ?_, ?_, ?_⟩
    · intro hmem
      rcases pufLoop_mem_callET llm _ st0 n hmem with ⟨f, hf, hfn⟩
      exact hnotin f hf hfn
    · intro hmem
      rcases pufLoop_mem_callInfo llm _ st0 n hmem with ⟨f, hf, hfn, _⟩
      exact hnotin f hf hfn
    · exact pufLoop_lookup_ne llm _ st0 n hnotin
    · exact pufLoop_hasKey_mono llm _ st0 n hn
  · exact pufLoop_keys_nodup llm _ st0

/-- Witness for the amended C1: with `a.pdf` already in the store, a further
upload event carrying `a.pdf` makes no extraction call for it and keeps its
record. -/
theorem c1_amended_skip_preexisting_witness :
    Ev.callExtractText "a.pdf" ∉ (process_uploaded_files [fileA2] llmAB storeA).2
    ∧ Ev.callExtractInfo "a.pdf" ∉ (process_uploaded_files [fileA2] llmAB storeA).2
    ∧ (process_uploaded_files [fileA2] llmAB storeA).1.lookup "a.pdf"
        = Store.lookup storeA "a.pdf" := by
  have h := (c1_amended_skip_preexisting [fileA2] llmAB storeA).1 "a.pdf" (by decide)
  exact ⟨h.1, h.2.1, h.2.2.1⟩

/-- C2 counterexample: when the service call fails, the file is **not** marked
processed-but-empty — the empty record is discarded by the `if info:` guard, no
session entry is created, and a later upload event with the same name calls
`extract_information` again. -/
theorem c2_counterexample :
    extract_information "tt" llmFail
      = (Json.obj [], [Msg.extractInfoError], [chatRequestFor "tt"])
    ∧ (process_uploaded_files [fileB] llmFail []).1 = []
    ∧ Ev.message Msg.extractInfoError ∈ (process_uploaded_files [fileB] llmFail []).2
    ∧ Ev.callExtractInfo "b.pdf"
        ∈ (process_uploaded_files [fileB] llmFail
            ((process_uploaded_files [fileB] llmFail []).1)).2 := by
  refine ⟨rfl, rfl, by decide, by decide⟩

/-- C2 amended: on any Information Extractor failure (API call error or JSON
parse failure) `extract_information` reports a non-fatal message and returns
the empty record; because the empty record is falsy it is **not** stored, the
session is left unchanged, and a later upload event with the same (still
unprocessed) name calls `extract_information` again. -/
theorem c2_amended_failure_not_stored (t : String) (llm : ChatRequest → LLMResult)
    (hfail : llm (chatRequestFor t) = .apiError
      ∨ ∃ raw, llm (chatRequestFor t) = .badJson raw) :
    extract_information t llm = (Json.obj [], [Msg.extractInfoError], [chatRequestFor t])
    ∧ (∀ f st, (extract_text f).1 = t → (pufStep llm f st).1 = st)
    ∧ (∀ (f : UploadedFile) (st : Store), (extract_text f).1 = t →
        t.data.isEmpty = false → st.hasKey f.name = false →
        Ev.callExtractInfo f.name ∈ (process_uploaded_files [f] llm st).2) := by
  have hret : extract_information t llm
      = (Json.obj [], [Msg.extractInfoError], [chatRequestFor t]) := by
    rcases hfail with h | ⟨raw, h⟩ <;> simp [extract_information, h]
  refine ⟨hret, ?_, ?_⟩
  · intro f st ht
    rw [pufStep_eq]
    by_cases he : (extract_text f).1.data.isEmpty
    · rw [if_pos he]
    · rw [if_neg he, ht, hret]
      simp [Json.truthy]
  · intro f st ht hne hkey
    have hfilter : filterNew st [f] = [f] := by
      simp [filterNew, List.filter, hkey]
    simp only [process_uploaded_files, hfilter, pufLoop]
    rw [pufStep_eq, ht, if_neg (by simp [hne])]
    rw [ht] at *
    split_ifs <;> simp

/-- Witness for the amended C2 at a concrete failing upload. -/
theorem c2_amended_failure_not_stored_witness :
    extract_information "tt" llmFail
      = (Json.obj [], [Msg.extractInfoError], [chatRequestFor "tt"])
    ∧ (pufStep llmFail fileB []).1 = []
    ∧ Ev.callExtractInfo "b.pdf" ∈ (process_uploaded_files [fileB] llmFail []).2 := by
  have h := c2_amended_failure_not_stored "tt" llmFail (Or.inl rfl)
  exact ⟨h.1, h.2.1 fileB [] rfl, h.2.2 fileB [] rfl (by decide) (by decide)⟩

theorem filterNew_append (st : Store) (l1 l2 : List UploadedFile) :
    filterNew st (l1 ++ l2) = filterNew st l1 ++ filterNew st l2 := by
  simp [filterNew, List.filter_append]

theorem filterNew_cons_new (st : Store) (f : UploadedFile) (l : List UploadedFile)
    (h : st.hasKey f.name = false) : filterNew st (f :: l) = f :: filterNew st l := by
  simp [filterNew, List.filter_cons, h]

theorem filterNew_cons_old (st : Store) (f : UploadedFile) (l : List UploadedFile)
    (h : st.hasKey f.name = true) : filterNew st (f :: l) = filterNew st l := by
  simp [filterNew, List.filter_cons, h]

/-- C4: a file whose extension is unsupported is reported exactly once and
yields empty text; no entry for it is added, `extract_information` is never
called for its name, and the other files of the event are processed exactly as
they would be without it (same final store, same surrounding event trace). -/
theorem c4_unsupported_extension (l1 l2 : List UploadedFile) (f : UploadedFile)
    (llm : ChatRequest → LLMResult) (st0 : Store)
    (hext : acceptedExt f.name = false) (hnew : st0.hasKey f.name = false) :
    extract_text f = ("", [Msg.unsupportedFormat])
    ∧ process_uploaded_files (l1 ++ f :: l2) llm st0
        = ((process_uploaded_files (l1 ++ l2) llm st0).1,
            (pufLoop llm (filterNew st0 l1) st0).2
              ++ ([Ev.callExtractText f.name, Ev.message Msg.unsupportedFormat]
              ++ (pufLoop llm (filterNew st0 l2) (pufLoop llm (filterNew st0 l1) st0).1).2))
    ∧ (process_uploaded_files (l1 ++ l2) llm st0).2
        = (pufLoop llm (filterNew st0 l1) st0).2
            ++ (pufLoop llm (filterNew st0 l2) (pufLoop llm (filterNew st0 l1) st0).1).2
    ∧ Ev.callExtractInfo f.name ∉ (process_uploaded_files (l1 ++ f :: l2) llm st0).2
    ∧ (process_uploaded_files (l1 ++ f :: l2) llm st0).1.hasKey f.name = false
    ∧ msgCount Msg.unsupportedFormat (process_uploaded_files (l1 ++ f :: l2) llm st0).2
        = msgCount Msg.unsupportedFormat (process_uploaded_files (l1 ++ l2) llm st0).2 + 1 := by
  have hsplit : filterNew st0 (l1 ++ f :: l2)
      = filterNew st0 l1 ++ f :: filterNew st0 l2 := by
    rw [filterNew_append, filterNew_cons_new st0 f l2 hnew]
  have hsplit2 : filterNew st0 (l1 ++ l2) = filterNew st0 l1 ++ filterNew st0 l2 :=
    filterNew_append st0 l1 l2
  have hstepf : ∀ st, pufStep llm f st
      = (st, [Ev.callExtractText f.name, Ev.message Msg.unsupportedFormat]) :=
    fun st => pufStep_unsupported llm f st hext
  have hfull : process_uploaded_files (l1 ++ f :: l2) llm st0
      = ((pufLoop llm (filterNew st0 l2) (pufLoop llm (filterNew st0 l1) st0).1).1,
          (pufLoop llm (filterNew st0 l1) st0).2
            ++ ([Ev.callExtractText f.name, Ev.message Msg.unsupportedFormat]
            ++ (pufLoop llm (filterNew st0 l2) (pufLoop llm (filterNew st0 l1) st0).1).2)) := by
    simp only [process_uploaded_files, hsplit]
    rw [pufLoop_append]
    simp only [pufLoop, hstepf]
  have hwout : process_uploaded_files (l1 ++ l2) llm st0
      = ((pufLoop llm (filterNew st0 l2) (pufLoop llm (filterNew st0 l1) st0).1).1,
          (pufLoop llm (filterNew st0 l1) st0).2
            ++ (pufLoop llm (filterNew st0 l2) (pufLoop llm (filterNew st0 l1) st0).1).2) := by
    simp only [process_uploaded_files, hsplit2]
    rw [pufLoop_append]
  have hnameempty : ∀ g : UploadedFile, g.name = f.name →
      (extract_text g).1.data.isEmpty = true := by
    intro g hg
    have : acceptedExt g.name = false := by rw [hg]; exact hext
    rw [extract_text_unsupported g this]
    rfl
  refine ⟨extract_text_unsupported f hext, ?_, ?_, ?_, ?_, ?_⟩
  · rw [hfull, hwout]
  · rw [hwout]
  · intro hmem
    rw [process_uploaded_files] at hmem
    rcases pufLoop_mem_callInfo llm _ st0 f.name hmem with ⟨g, _, hgn, hgne⟩
    rw [hnameempty g hgn] at hgne
    exact Bool.noConfusion hgne
  · rw [process_uploaded_files]
    rw [pufLoop_hasKey_eq llm _ st0 f.name
      (fun g hg hgn => hnameempty g hgn)]
    exact hnew
  · rw [hfull, hwout]
    simp only [msgCount, List.countP_append, List.countP_cons, List.countP_nil]
    simp
    omega

/-- Witness for C4 at a concrete `.txt` upload. -/
theorem c4_unsupported_extension_witness :
    extract_text fileTxt = ("", [Msg.unsupportedFormat])
    ∧ Ev.callExtractInfo "notes.txt" ∉ (process_uploaded_files [fileTxt] llmFail []).2
    ∧ (process_uploaded_files [fileTxt] llmFail []).1.hasKey "notes.txt" = false := by
  have h := c4_unsupported_extension [] [] fileTxt llmFail [] (by decide) (by decide)
  obtain ⟨hA, _, _, hD, hE, _⟩ := h
  exact ⟨hA, by simpa using hD, by simpa using hE⟩

/-- C5: when document parsing raises, `extract_text_from_file` catches it,
reports a non-fatal message and returns the empty string; `extract_information`
is not called for that file, the store is untouched by it, and the remaining
files of the event are processed exactly as without it. -/
theorem c5_parse_failure (l1 l2 : List UploadedFile) (f : UploadedFile)
    (llm : ChatRequest → LLMResult) (st0 : Store)
    (hacc : acceptedExt f.name = true)
    (hfail : f.parse (chosenFiletype f.name) = none) :
    extract_text_from_file f = ("", [Msg.extractTextError])
    ∧ (∀ st, pufStep llm f st
        = (st, [Ev.callExtractText f.name, Ev.message Msg.extractTextError]))
    ∧ (∀ st, Ev.callExtractInfo f.name ∉ (pufStep llm f st).2)
    ∧ (process_uploaded_files (l1 ++ f :: l2) llm st0).1
        = (process_uploaded_files (l1 ++ l2) llm st0).1
    ∧ (st0.hasKey f.name = false →
        (process_uploaded_files (l1 ++ f :: l2) llm st0).2
          = (pufLoop llm (filterNew st0 l1) st0).2
            ++ ([Ev.callExtractText f.name, Ev.message Msg.extractTextError]
            ++ (pufLoop llm (filterNew st0 l2) (pufLoop llm (filterNew st0 l1) st0).1).2)) := by
  have hstepf : ∀ st, pufStep llm f st
      = (st, [Ev.callExtractText f.name, Ev.message Msg.extractTextError]) :=
    fun st => pufStep_parse_failure llm f st hacc hfail
  have hETF : extract_text_from_file f = ("", [Msg.extractTextError]) := by
    rw [extract_text_from_file, hfail]
  refine ⟨hETF, hstepf, ?_, ?_, ?_⟩
  · intro st hmem
    rw [hstepf st] at hmem
    simp at hmem
  · rcases hk : st0.hasKey f.name with _ | _
    · have hsplit : filterNew st0 (l1 ++ f :: l2)
          = filterNew st0 l1 ++ f :: filterNew st0 l2 := by
        rw [filterNew_append, filterNew_cons_new st0 f l2 hk]
      simp only [process_uploaded_files, hsplit, filterNew_append]
      rw [pufLoop_append, pufLoop_append]
      simp only [pufLoop, hstepf]
    · have hsplit : filterNew st0 (l1 ++ f :: l2)
          = filterNew st0 l1 ++ filterNew st0 l2 := by
        rw [filterNew_append, filterNew_cons_old st0 f l2 hk]
      simp only [process_uploaded_files, hsplit, filterNew_append]
  · intro hk
    have hsplit : filterNew st0 (l1 ++ f :: l2)
        = filterNew st0 l1 ++ f :: filterNew st0 l2 := by
      rw [filterNew_append, filterNew_cons_new st0 f l2 hk]
    simp only [process_uploaded_files, hsplit]
    rw [pufLoop_append]
    simp only [pufLoop, hstepf]

/-- Witness for C5 at a concrete corrupt upload. -/
theorem c5_parse_failure_witness :
    extract_text_from_file fileBroken = ("", [Msg.extractTextError])
    ∧ pufStep llmFail fileBroken []
        = ([], [Ev.callExtractText "broken.pdf", Ev.message Msg.extractTextError])
    ∧ (process_uploaded_files [fileBroken, fileB] llmFail []).1
        = (process_uploaded_files [fileB] llmFail []).1 := by
  have h := c5_parse_failure [] [fileB] fileBroken llmFail [] (by decide) rfl
  exact ⟨h.1, by simpa using h.2.1 [], by simpa using h.2.2.2.1⟩

/-! ## Field lookup on typed records -/

theorem dictGet_append (l1 l2 : List (String × Json)) (k : String) :
    dictGet (l1 ++ l2) k = (dictGet l1 k).or (dictGet l2 k) := by
  rcases h : List.find? (fun p => p.1 == k) l1 with _ | p
  · simp [dictGet, List.find?_append, h, Option.or]
  · simp [dictGet, List.find?_append, h, Option.or]

theorem dictGet_optField_self (k : String) (v : Option Json) :
    dictGet (optField k v) k = v := by
  cases v <;> simp [optField, dictGet, List.find?]

theorem dictGet_optField_ne (k k2 : String) (v : Option Json) (h : k ≠ k2) :
    dictGet (optField k v) k2 = none := by
  cases v <;> simp [optField, dictGet, List.find?, beq_eq_false_iff_ne.mpr h]

theorem fieldsJson_name (r : ExtractedRecord) :
    dictGet r.fieldsJson "name" = r.name.map Json.str := by
  have h : dictGet r.fieldsJson "name" = r.name.map Json.str := by
    rw [ExtractedRecord.fieldsJson]
    simp only [dictGet_append]
    rw [dictGet_optField_self]
    rw [dictGet_optField_ne "education" "name" _ (by decide)]
    rw [dictGet_optField_ne "nationality" "name" _ (by decide)]
    rw [dictGet_optField_ne "dob" "name" _ (by decide)]
    rw [dictGet_optField_ne "languages" "name" _ (by decide)]
    rw [dictGet_optField_ne "location" "name" _ (by decide)]
    rw [dictGet_optField_ne "experience" "name" _ (by decide)]
    rw [dictGet_optField_ne "certificates" "name" _ (by decide)]
    rw [dictGet_optField_ne "visas" "name" _ (by decide)]
    rw [dictGet_optField_ne "summary" "name" _ (by decide)]
    cases r.name <;> rfl
  exact h

theorem fieldsJson_education (r : ExtractedRecord) :
    dictGet r.fieldsJson "education" = r.education.map (fun l => Json.arr (l.map EduEntry.toJson)) := by
  have h : dictGet r.fieldsJson "education" = r.education.map (fun l => Json.arr (l.map EduEntry.toJson)) := by
    rw [ExtractedRecord.fieldsJson]
    simp only [dictGet_append]
    rw [dictGet_optField_ne "name" "education" _ (by decide)]
    rw [dictGet_optField_self]
    rw [dictGet_optField_ne "nationality" "education" _ (by decide)]
    rw [dictGet_optField_ne "dob" "education" _ (by decide)]
    rw [dictGet_optField_ne "languages" "education" _ (by decide)]
    rw [dictGet_optField_ne "location" "education" _ (by decide)]
    rw [dictGet_optField_ne "experience" "education" _ (by decide)]
    rw [dictGet_optField_ne "certificates" "education" _ (by decide)]
    rw [dictGet_optField_ne "visas" "education" _ (by decide)]
    rw [dictGet_optField_ne "summary" "education" _ (by decide)]
    cases r.education <;> rfl
  exact h

theorem fieldsJson_nationality (r : ExtractedRecord) :
    dictGet r.fieldsJson "nationality" = r.nationality.map Json.str := by
  have h : dictGet r.fieldsJson "nationality" = r.nationality.map Json.str := by
    rw [ExtractedRecord.fieldsJson]
    simp only [dictGet_append]
    rw [dictGet_optField_ne "name" "nationality" _ (by decide)]
    rw [dictGet_optField_ne "education" "nationality" _ (by decide)]
    rw [dictGet_optField_self]
    rw [dictGet_optField_ne "dob" "nationality" _ (by decide)]
    rw [dictGet_optField_ne "languages" "nationality" _ (by decide)]
    rw [dictGet_optField_ne "location" "nationality" _ (by decide)]
    rw [dictGet_optField_ne "experience" "nationality" _ (by decide)]
    rw [dictGet_optField_ne "certificates" "nationality" _ (by decide)]
    rw [dictGet_optField_ne "visas" "nationality" _ (by decide)]
    rw [dictGet_optField_ne "summary" "nationality" _ (by decide)]
    cases r.nationality <;> rfl
  exact h

theorem fieldsJson_dob (r : ExtractedRecord) :
    dictGet r.fieldsJson "dob" = r.dob.map Json.str := by
  have h : dictGet r.fieldsJson "dob" = r.dob.map Json.str := by
    rw [ExtractedRecord.fieldsJson]
    simp only [dictGet_append]
    rw [dictGet_optField_ne "name" "dob" _ (by decide)]
    rw [dictGet_optField_ne "education" "dob" _ (by decide)]
    rw [dictGet_optField_ne "nationality" "dob" _ (by decide)]
    rw [dictGet_optField_self]
    rw [dictGet_optField_ne "languages" "dob" _ (by decide)]
    rw [dictGet_optField_ne "location" "dob" _ (by decide)]
    rw [dictGet_optField_ne "experience" "dob" _ (by decide)]
    rw [dictGet_optField_ne "certificates" "dob" _ (by decide)]
    rw [dictGet_optField_ne "visas" "dob" _ (by decide)]
    rw [dictGet_optField_ne "summary" "dob" _ (by decide)]
    cases r.dob <;> rfl
  exact h

theorem fieldsJson_languages (r : ExtractedRecord) :
    dictGet r.fieldsJson "languages" = r.languages.map (fun l => Json.arr (l.map Json.str)) := by
  have h : dictGet r.fieldsJson "languages" = r.languages.map (fun l => Json.arr (l.map Json.str)) := by
    rw [ExtractedRecord.fieldsJson]
    simp only [dictGet_append]
    rw [dictGet_optField_ne "name" "languages" _ (by decide)]
    rw [dictGet_optField_ne "education" "languages" _ (by decide)]
    rw [dictGet_optField_ne "nationality" "languages" _ (by decide)]
    rw [dictGet_optField_ne "dob" "languages" _ (by decide)]
    rw [dictGet_optField_self]
    rw [dictGet_optField_ne "location" "languages" _ (by decide)]
    rw [dictGet_optField_ne "experience" "languages" _ (by decide)]
    rw [dictGet_optField_ne "certificates" "languages" _ (by decide)]
    rw [dictGet_optField_ne "visas" "languages" _ (by decide)]
    rw [dictGet_optField_ne "summary" "languages" _ (by decide)]
    cases r.languages <;> rfl
  exact h

theorem fieldsJson_location (r : ExtractedRecord) :
    dictGet r.fieldsJson "location" = r.location.map Json.str := by
  have h : dictGet r.fieldsJson "location" = r.location.map Json.str := by
    rw [ExtractedRecord.fieldsJson]
    simp only [dictGet_append]
    rw [dictGet_optField_ne "name" "location" _ (by decide)]
    rw [dictGet_optField_ne "education" "location" _ (by decide)]
    rw [dictGet_optField_ne "nationality" "location" _ (by decide)]
    rw [dictGet_optField_ne "dob" "location" _ (by decide)]
    rw [dictGet_optField_ne "languages" "location" _ (by decide)]
    rw [dictGet_optField_self]
    rw [dictGet_optField_ne "experience" "location" _ (by decide)]
    rw [dictGet_optField_ne "certificates" "location" _ (by decide)]
    rw [dictGet_optField_ne "visas" "location" _ (by decide)]
    rw [dictGet_optField_ne "summary" "location" _ (by decide)]
    cases r.location <;> rfl
  exact h

theorem fieldsJson_experience (r : ExtractedRecord) :
    dictGet r.fieldsJson "experience" = r.experience.map (fun l => Json.arr (l.map ExpEntry.toJson)) := by
  have h : dictGet r.fieldsJson "experience" = r.experience.map (fun l => Json.arr (l.map ExpEntry.toJson)) := by
    rw [ExtractedRecord.fieldsJson]
    simp only [dictGet_append]
    rw [dictGet_optField_ne "name" "experience" _ (by decide)]
    rw [dictGet_optField_ne "education" "experience" _ (by decide)]
    rw [dictGet_optField_ne "nationality" "experience" _ (by decide)]
    rw [dictGet_optField_ne "dob" "experience" _ (by decide)]
    rw [dictGet_optField_ne "languages" "experience" _ (by decide)]
    rw [dictGet_optField_ne "location" "experience" _ (by decide)]
    rw [dictGet_optField_self]
    rw [dictGet_optField_ne "certificates" "experience" _ (by decide)]
    rw [dictGet_optField_ne "visas" "experience" _ (by decide)]
    rw [dictGet_optField_ne "summary" "experience" _ (by decide)]
    cases r.experience <;> rfl
  exact h

theorem fieldsJson_certificates (r : ExtractedRecord) :
    dictGet r.fieldsJson "certificates" = r.certificates.map (fun l => Json.arr (l.map Json.str)) := by
  have h : dictGet r.fieldsJson "certificates" = r.certificates.map (fun l => Json.arr (l.map Json.str)) := by
    rw [ExtractedRecord.fieldsJson]
    simp only [dictGet_append]
    rw [dictGet_optField_ne "name" "certificates" _ (by decide)]
    rw [dictGet_optField_ne "education" "certificates" _ (by decide)]
    rw [dictGet_optField_ne "nationality" "certificates" _ (by decide)]
    rw [dictGet_optField_ne "dob" "certificates" _ (by decide)]
    rw [dictGet_optField_ne "languages" "certificates" _ (by decide)]
    rw [dictGet_optField_ne "location" "certificates" _ (by decide)]
    rw [dictGet_optField_ne "experience" "certificates" _ (by decide)]
    rw [dictGet_optField_self]
    rw [dictGet_optField_ne "visas" "certificates" _ (by decide)]
    rw [dictGet_optField_ne "summary" "certificates" _ (by decide)]
    cases r.certificates <;> rfl
  exact h

theorem fieldsJson_visas (r : ExtractedRecord) :
    dictGet r.fieldsJson "visas" = r.visas.map (fun l => Json.arr (l.map Json.str)) := by
  have h : dictGet r.fieldsJson "visas" = r.visas.map (fun l => Json.arr (l.map Json.str)) := by
    rw [ExtractedRecord.fieldsJson]
    simp only [dictGet_append]
    rw [dictGet_optField_ne "name" "visas" _ (by decide)]
    rw [dictGet_optField_ne "education" "visas" _ (by decide)]
    rw [dictGet_optField_ne "nationality" "visas" _ (by decide)]
    rw [dictGet_optField_ne "dob" "visas" _ (by decide)]
    rw [dictGet_optField_ne "languages" "visas" _ (by decide)]
    rw [dictGet_optField_ne "location" "visas" _ (by decide)]
    rw [dictGet_optField_ne "experience" "visas" _ (by decide)]
    rw [dictGet_optField_ne "certificates" "visas" _ (by decide)]
    rw [dictGet_optField_self]
    rw [dictGet_optField_ne "summary" "visas" _ (by decide)]
    cases r.visas <;> rfl
  exact h

theorem fieldsJson_summary (r : ExtractedRecord) :
    dictGet r.fieldsJson "summary" = r.summary.map Json.str := by
  have h : dictGet r.fieldsJson "summary" = r.summary.map Json.str := by
    rw [ExtractedRecord.fieldsJson]
    simp only [dictGet_append]
    rw [dictGet_optField_ne "name" "summary" _ (by decide)]
    rw [dictGet_optField_ne "education" "summary" _ (by decide)]
    rw [dictGet_optField_ne "nationality" "summary" _ (by decide)]
    rw [dictGet_optField_ne "dob" "summary" _ (by decide)]
    rw [dictGet_optField_ne "languages" "summary" _ (by decide)]
    rw [dictGet_optField_ne "location" "summary" _ (by decide)]
    rw [dictGet_optField_ne "experience" "summary" _ (by decide)]
    rw [dictGet_optField_ne "certificates" "summary" _ (by decide)]
    rw [dictGet_optField_ne "visas" "summary" _ (by decide)]
    rw [dictGet_optField_self]
    cases r.summary <;> rfl
  exact h

/-! ## Display sections on typed records -/

theorem str_eq_empty_iff (s : String) : s = "" ↔ s.data = [] := by
  constructor
  · intro h
    rw [h]
  · intro h
    cases s
    simp only at h
    rw [h]

theorem bulletOuts_no_sub (jd s : String) : Out.subheader s ∉ bulletOuts jd := by
  intro h
  rw [bulletOuts, List.mem_filterMap] at h
  rcases h with ⟨a, _, ha⟩
  by_cases h2 : (pyStrip a).data.isEmpty
  · simp [h2] at ha
  · simp [h2] at ha

theorem expEntrySection_toJson (e : ExpEntry) :
    (expEntrySection (ExpEntry.toJson e)).2 = false
    ∧ ∀ s, Out.subheader s ∉ (expEntrySection (ExpEntry.toJson e)).1 := by
  have hjd : dictGet (optField "company_name" (e.company_name.map .str) ++
      (optField "position" (e.position.map .str) ++
      (optField "duration" (e.duration.map .str) ++
      optField "job_description" (e.job_description.map .str)))) "job_description"
      = e.job_description.map Json.str := by
    simp only [dictGet_append]
    rw [dictGet_optField_ne "company_name" "job_description" _ (by decide),
      dictGet_optField_ne "position" "job_description" _ (by decide),
      dictGet_optField_ne "duration" "job_description" _ (by decide),
      dictGet_optField_self]
    cases e.job_description <;> rfl
  have hjdD : dictGetD (optField "company_name" (e.company_name.map .str) ++
      (optField "position" (e.position.map .str) ++
      (optField "duration" (e.duration.map .str) ++
      optField "job_description" (e.job_description.map .str)))) "job_description" (.str "")
      = Json.str (e.job_description.getD "") := by
    rw [dictGetD, hjd]
    cases e.job_description <;> rfl
  constructor
  · rw [ExpEntry.toJson]
    simp [expEntrySection, hjdD]
  · intro s hmem
    rw [ExpEntry.toJson] at hmem
    simp [expEntrySection, hjdD] at hmem
    exact bulletOuts_no_sub _ s hmem

theorem eduEntrySection_toJson (e : EduEntry) :
    (eduEntrySection (EduEntry.toJson e)).2 = false
    ∧ ∀ s, Out.subheader s ∉ (eduEntrySection (EduEntry.toJson e)).1 := by
  rw [EduEntry.toJson]
  simp [eduEntrySection]

theorem entriesLoop_ok (f : Json → List Out × Bool) (es : List Json)
    (h : ∀ e ∈ es, (f e).2 = false ∧ ∀ s, Out.subheader s ∉ (f e).1) :
    (entriesLoop f es).2 = false
    ∧ ∀ s, Out.subheader s ∉ (entriesLoop f es).1 := by
  induction es with
  | nil => simp [entriesLoop]
  | cons e rest ih =>
      obtain ⟨h1, h2⟩ := h e (List.mem_cons_self e rest)
      have hr := ih (fun x hx => h x (List.mem_cons_of_mem _ hx))
      rcases hfe : f e with ⟨o, err⟩
      rw [hfe] at h1 h2
      simp only at h1
      subst h1
      rcases hloop : entriesLoop f rest with ⟨o2, err2⟩
      rw [hloop] at hr
      simp only [entriesLoop, hfe, hloop] at *
      refine ⟨hr.1, ?_⟩
      intro s hmem
      rcases List.mem_append.mp hmem with hm | hm
      · exact h2 s hm
      · exact hr.2 s hm

theorem chainSections_ok (ss : List (List Out × Bool)) (h : ∀ s ∈ ss, s.2 = false) :
    chainSections ss = ((ss.map Prod.fst).flatten, false) := by
  induction ss with
  | nil => simp [chainSections]
  | cons s rest ih =>
      rcases hs : s with ⟨o, err⟩
      have h1 := h s (List.mem_cons_self s rest)
      rw [hs] at h1
      simp only at h1
      subst h1
      have hr := ih (fun x hx => h x (List.mem_cons_of_mem _ hx))
      simp [chainSections, hs, hr]

theorem summarySection_shape (r : ExtractedRecord) :
    sectionShape "📝 Professional Summary" (∃ s, r.summary = some s ∧ s ≠ "")
      (summarySection r.fieldsJson) := by
  rw [sectionShape]
  rcases hS : r.summary with _ | s
  · have hv : summarySection r.fieldsJson = ([], false) := by
      simp [summarySection, dictGetD, fieldsJson_summary, hS, Json.truthy]
    simp [hv, hS]
  · by_cases he : s.data = []
    · have hs0 : s = "" := (str_eq_empty_iff s).mpr he
      have hv : summarySection r.fieldsJson = ([], false) := by
        simp [summarySection, dictGetD, fieldsJson_summary, hS, Json.truthy, hs0]
      simp [hv, hS, hs0]
    · have hv : summarySection r.fieldsJson
          = ([.subheader "📝 Professional Summary", .write s], false) := by
        simp [summarySection, dictGetD, fieldsJson_summary, hS, Json.truthy,
          List.isEmpty_iff, he, pyStr]
      rw [hv]
      refine ⟨rfl, ?_, ?_⟩
      · intro t ht hmem
        simp at hmem
        exact ht hmem
      · simp [hS]
        intro h
        exact absurd ((str_eq_empty_iff s).mp h) he

theorem experienceSection_shape (r : ExtractedRecord) :
    sectionShape "💼 Work Experience" (∃ l, r.experience = some l ∧ l ≠ [])
      (experienceSection r.fieldsJson) := by
  rw [sectionShape]
  rcases hE : r.experience with _ | l
  · have hv : experienceSection r.fieldsJson = ([], false) := by
      simp [experienceSection, dictGetD, fieldsJson_experience, hE, Json.truthy]
    simp [hv, hE]
  · rcases l with _ | ⟨e, es⟩
    · have hv : experienceSection r.fieldsJson = ([], false) := by
        simp [experienceSection, dictGetD, fieldsJson_experience, hE, Json.truthy]
      simp [hv, hE]
    · have hloop := entriesLoop_ok expEntrySection (ExpEntry.toJson e :: es.map ExpEntry.toJson)
        (by
          intro x hx
          rcases List.mem_cons.mp hx with hx1 | hx2
          · rw [hx1]
            exact expEntrySection_toJson e
          · rcases List.mem_map.mp hx2 with ⟨e2, _, he2⟩
            rw [← he2]
            exact expEntrySection_toJson e2)
      rcases hl : entriesLoop expEntrySection (ExpEntry.toJson e :: es.map ExpEntry.toJson) with ⟨o, err⟩
      rw [hl] at hloop
      simp only at hloop
      have hv : experienceSection r.fieldsJson
          = (.subheader "💼 Work Experience" :: o, false) := by
        simp [experienceSection, dictGetD, fieldsJson_experience, hE, Json.truthy,
          pyIterate, hl, hloop.1]
      rw [hv]
      refine ⟨rfl, ?_, ?_⟩
      · intro t ht hmem
        simp at hmem
        rcases hmem with h | h
        · exact ht h
        · exact hloop.2 t h
      · simp [hE]

theorem educationSection_shape (r : ExtractedRecord) :
    sectionShape "🎓 Education" (∃ l, r.education = some l ∧ l ≠ [])
      (educationSection r.fieldsJson) := by
  rw [sectionShape]
  rcases hE : r.education with _ | l
  · have hv : educationSection r.fieldsJson = ([], false) := by
      simp [educationSection, dictGetD, fieldsJson_education, hE, Json.truthy]
    simp [hv, hE]
  · rcases l with _ | ⟨e, es⟩
    · have hv : educationSection r.fieldsJson = ([], false) := by
        simp [educationSection, dictGetD, fieldsJson_education, hE, Json.truthy]
      simp [hv, hE]
    · have hloop := entriesLoop_ok eduEntrySection (EduEntry.toJson e :: es.map EduEntry.toJson)
        (by
          intro x hx
          rcases List.mem_cons.mp hx with hx1 | hx2
          · rw [hx1]
            exact eduEntrySection_toJson e
          · rcases List.mem_map.mp hx2 with ⟨e2, _, he2⟩
            rw [← he2]
            exact eduEntrySection_toJson e2)
      rcases hl : entriesLoop eduEntrySection (EduEntry.toJson e :: es.map EduEntry.toJson) with ⟨o, err⟩
      rw [hl] at hloop
      simp only at hloop
      have hv : educationSection r.fieldsJson
          = (.subheader "🎓 Education" :: o, false) := by
        simp [educationSection, dictGetD, fieldsJson_education, hE, Json.truthy,
          pyIterate, hl, hloop.1]
      rw [hv]
      refine ⟨rfl, ?_, ?_⟩
      · intro t ht hmem
        simp at hmem
        rcases hmem with h | h
        · exact ht h
        · exact hloop.2 t h
      · simp [hE]

theorem languagesSection_shape (r : ExtractedRecord) :
    sectionShape "🗣 Languages" (∃ l, r.languages = some l ∧ l ≠ [])
      (languagesSection r.fieldsJson) := by
  rw [sectionShape]
  rcases hL : r.languages with _ | l
  · have hv : languagesSection r.fieldsJson = ([], false) := by
      simp [languagesSection, dictGetD, fieldsJson_languages, hL, Json.truthy]
    simp [hv, hL]
  · rcases l with _ | ⟨x, xs⟩
    · have hv : languagesSection r.fieldsJson = ([], false) := by
        simp [languagesSection, dictGetD, fieldsJson_languages, hL, Json.truthy]
      simp [hv, hL]
    · have hall : ((x :: xs).map Json.str).all
          (fun j => match j with | .str _ => true | _ => false) = true := by
        simp [List.all_map]
      have hv : languagesSection r.fieldsJson
          = ([.subheader "🗣 Languages",
              .write (pyJoinList ", " (((x :: xs).map Json.str).map
                (fun j => match j with | .str s => s | _ => "")))], false) := by
        simp only [languagesSection, dictGetD, fieldsJson_languages, hL]
        simp [Json.truthy, pyJoinStrs, hall]
      rw [hv]
      refine ⟨rfl, ?_, ?_⟩
      · intro t ht hmem
        simp at hmem
        exact ht hmem
      · simp [hL]

theorem bulletListSection_shape (r : ExtractedRecord) (hdr key : String)
    (l : Option (List String))
    (hget : dictGet r.fieldsJson key = l.map (fun v => Json.arr (v.map Json.str))) :
    sectionShape hdr (∃ v, l = some v ∧ v ≠ [])
      (bulletListSection hdr key r.fieldsJson) := by
  rw [sectionShape]
  rcases hL : l with _ | v
  · rw [hL] at hget
    have hv : bulletListSection hdr key r.fieldsJson = ([], false) := by
      simp [bulletListSection, dictGetD, hget, Json.truthy]
    simp [hv]
  · rw [hL] at hget
    rcases v with _ | ⟨x, xs⟩
    · have hv : bulletListSection hdr key r.fieldsJson = ([], false) := by
        simp [bulletListSection, dictGetD, hget, Json.truthy]
      simp [hv]
    · have hv : bulletListSection hdr key r.fieldsJson
          = (.subheader hdr :: ((x :: xs).map Json.str).map
              (fun i => .write ("- " ++ pyStr i)), false) := by
        simp only [bulletListSection, dictGetD, hget]
        simp [Json.truthy, pyIterate]
      rw [hv]
      refine ⟨rfl, ?_, ?_⟩
      · intro t ht hmem
        simp at hmem
        exact ht hmem
      · simp

theorem basicInfo_no_sub (fs : List (String × Json)) (s : String) :
    Out.subheader s ∉ basicInfoOuts fs := by
  intro h
  simp [basicInfoOuts] at h

theorem basicInfo_na (r : ExtractedRecord) :
    (r.name = none → Out.write "**Name:** N/A" ∈ basicInfoOuts r.fieldsJson)
    ∧ (r.location = none → Out.write "**Location:** N/A" ∈ basicInfoOuts r.fieldsJson)
    ∧ (r.nationality = none →
        Out.write "**Nationality:** N/A" ∈ basicInfoOuts r.fieldsJson)
    ∧ (r.dob = none → Out.write "**Date of Birth:** N/A" ∈ basicInfoOuts r.fieldsJson) := by
  refine ⟨?_, ?_, ?_, ?_⟩ <;> intro h
  · simp [basicInfoOuts, dictGetD, fieldsJson_name, h, pyStr]
  · simp [basicInfoOuts, dictGetD, fieldsJson_location, h, pyStr]
  · simp [basicInfoOuts, dictGetD, fieldsJson_nationality, h, pyStr]
  · simp [basicInfoOuts, dictGetD, fieldsJson_dob, h, pyStr]

/-- C6: for every record of the spec's data model and every file name,
`display_formatted_resume` raises nothing and renders the Work Experience
section iff the experience field is a non-empty list — likewise the summary
(non-empty string), education, languages, certificates and visas sections for
their fields — and each missing basic-info field (name, location, nationality,
date of birth) renders as `N/A`. -/
theorem c6_presentation (r : ExtractedRecord) (fn : String) :
    (display_formatted_resume r.toJson fn).2 = false
    ∧ (Out.subheader "📝 Professional Summary" ∈ (display_formatted_resume r.toJson fn).1
        ↔ ∃ s, r.summary = some s ∧ s ≠ "")
    ∧ (Out.subheader "💼 Work Experience" ∈ (display_formatted_resume r.toJson fn).1
        ↔ ∃ l, r.experience = some l ∧ l ≠ [])
    ∧ (Out.subheader "🎓 Education" ∈ (display_formatted_resume r.toJson fn).1
        ↔ ∃ l, r.education = some l ∧ l ≠ [])
    ∧ (Out.subheader "🗣 Languages" ∈ (display_formatted_resume r.toJson fn).1
        ↔ ∃ l, r.languages = some l ∧ l ≠ [])
    ∧ (Out.subheader "📜 Certificates" ∈ (display_formatted_resume r.toJson fn).1
        ↔ ∃ l, r.certificates = some l ∧ l ≠ [])
    ∧ (Out.subheader "🛂 Work Visas" ∈ (display_formatted_resume r.toJson fn).1
        ↔ ∃ l, r.visas = some l ∧ l ≠ [])
    ∧ (r.name = none → Out.write "**Name:** N/A" ∈ (display_formatted_resume r.toJson fn).1)
    ∧ (r.location = none →
        Out.write "**Location:** N/A" ∈ (display_formatted_resume r.toJson fn).1)
    ∧ (r.nationality = none →
        Out.write "**Nationality:** N/A" ∈ (display_formatted_resume r.toJson fn).1)
    ∧ (r.dob = none →
        Out.write "**Date of Birth:** N/A" ∈ (display_formatted_resume r.toJson fn).1) := by
  obtain ⟨hSumF, hSumNo, hSumIff⟩ := summarySection_shape r
  obtain ⟨hExpF, hExpNo, hExpIff⟩ := experienceSection_shape r
  obtain ⟨hEduF, hEduNo, hEduIff⟩ := educationSection_shape r
  obtain ⟨hLangF, hLangNo, hLangIff⟩ := languagesSection_shape r
  obtain ⟨hCertF, hCertNo, hCertIff⟩ :=
    bulletListSection_shape r "📜 Certificates" "certificates" r.certificates
      (fieldsJson_certificates r)
  obtain ⟨hVisF, hVisNo, hVisIff⟩ :=
    bulletListSection_shape r "🛂 Work Visas" "visas" r.visas (fieldsJson_visas r)
  have hall : ∀ s ∈ [summarySection r.fieldsJson, experienceSection r.fieldsJson,
      educationSection r.fieldsJson, languagesSection r.fieldsJson,
      certificatesSection r.fieldsJson, visasSection r.fieldsJson], s.2 = false := by
    intro s hs
    simp only [List.mem_cons, List.not_mem_nil, or_false] at hs
    rcases hs with rfl | rfl | rfl | rfl | rfl | rfl
    exacts [hSumF, hExpF, hEduF, hLangF, hCertF, hVisF]
  have hdisp : display_formatted_resume r.toJson fn
      = ([Out.title ("Resume Analysis: " ++ fn), Out.subheader "📌 Basic Information"]
          ++ basicInfoOuts r.fieldsJson
          ++ ((summarySection r.fieldsJson).1 ++ ((experienceSection r.fieldsJson).1
            ++ ((educationSection r.fieldsJson).1 ++ ((languagesSection r.fieldsJson).1
            ++ ((certificatesSection r.fieldsJson).1
            ++ ((visasSection r.fieldsJson).1 ++ [])))))), false) := by
    rw [ExtractedRecord.toJson]
    simp only [display_formatted_resume]
    rw [chainSections_ok _ hall]
    simp [List.flatten]
  have hmem : ∀ t : String, t ≠ "📌 Basic Information" →
      (Out.subheader t ∈ (display_formatted_resume r.toJson fn).1 ↔
        (Out.subheader t ∈ (summarySection r.fieldsJson).1 ∨
         Out.subheader t ∈ (experienceSection r.fieldsJson).1 ∨
         Out.subheader t ∈ (educationSection r.fieldsJson).1 ∨
         Out.subheader t ∈ (languagesSection r.fieldsJson).1 ∨
         Out.subheader t ∈ (certificatesSection r.fieldsJson).1 ∨
         Out.subheader t ∈ (visasSection r.fieldsJson).1)) := by
    intro t ht
    rw [hdisp]
    simp [List.mem_append, basicInfo_no_sub r.fieldsJson t, ht]
  have iffSum : Out.subheader "📝 Professional Summary"
      ∈ (display_formatted_resume r.toJson fn).1 ↔ ∃ s, r.summary = some s ∧ s ≠ "" := by
    rw [hmem _ (by decide)]
    constructor
    · rintro (h | h | h | h | h | h)
      · exact hSumIff.mp h
      · exact absurd h (hExpNo _ (by decide))
      · exact absurd h (hEduNo _ (by decide))
      · exact absurd h (hLangNo _ (by decide))
      · exact absurd h (hCertNo _ (by decide))
      · exact absurd h (hVisNo _ (by decide))
    · intro h
      exact Or.inl (hSumIff.mpr h)
  have iffExp : Out.subheader "💼 Work Experience"
      ∈ (display_formatted_resume r.toJson fn).1 ↔ ∃ l, r.experience = some l ∧ l ≠ [] := by
    rw [hmem _ (by decide)]
    constructor
    · rintro (h | h | h | h | h | h)
      · exact absurd h (hSumNo _ (by decide))
      · exact hExpIff.mp h
      · exact absurd h (hEduNo _ (by decide))
      · exact absurd h (hLangNo _ (by decide))
      · exact absurd h (hCertNo _ (by decide))
      · exact absurd h (hVisNo _ (by decide))
    · intro h
      exact Or.inr (Or.inl (hExpIff.mpr h))
  have iffEdu : Out.subheader "🎓 Education"
      ∈ (display_formatted_resume r.toJson fn).1 ↔ ∃ l, r.education = some l ∧ l ≠ [] := by
    rw [hmem _ (by decide)]
    constructor
    · rintro (h | h | h | h | h | h)
      · exact absurd h (hSumNo _ (by decide))
      · exact absurd h (hExpNo _ (by decide))
      · exact hEduIff.mp h
      · exact absurd h (hLangNo _ (by decide))
      · exact absurd h (hCertNo _ (by decide))
      · exact absurd h (hVisNo _ (by decide))
    · intro h
      exact Or.inr (Or.inr (Or.inl (hEduIff.mpr h)))
  have iffLang : Out.subheader "🗣 Languages"
      ∈ (display_formatted_resume r.toJson fn).1 ↔ ∃ l, r.languages = some l ∧ l ≠ [] := by
    rw [hmem _ (by decide)]
    constructor
    · rintro (h | h | h | h | h | h)
      · exact absurd h (hSumNo _ (by decide))
      · exact absurd h (hExpNo _ (by decide))
      · exact absurd h (hEduNo _ (by decide))
      · exact hLangIff.mp h
      · exact absurd h (hCertNo _ (by decide))
      · exact absurd h (hVisNo _ (by decide))
    · intro h
      exact Or.inr (Or.inr (Or.inr (Or.inl (hLangIff.mpr h))))
  have iffCert : Out.subheader "📜 Certificates"
      ∈ (display_formatted_resume r.toJson fn).1 ↔ ∃ l, r.certificates = some l ∧ l ≠ [] := by
    rw [hmem _ (by decide)]
    constructor
    · rintro (h | h | h | h | h | h)
      · exact absurd h (hSumNo _ (by decide))
      · exact absurd h (hExpNo _ (by decide))
      · exact absurd h (hEduNo _ (by decide))
      · exact absurd h (hLangNo _ (by decide))
      · exact hCertIff.mp h
      · exact absurd h (hVisNo _ (by decide))
    · intro h
      exact Or.inr (Or.inr (Or.inr (Or.inr (Or.inl (hCertIff.mpr h)))))
  have iffVis : Out.subheader "🛂 Work Visas"
      ∈ (display_formatted_resume r.toJson fn).1 ↔ ∃ l, r.visas = some l ∧ l ≠ [] := by
    rw [hmem _ (by decide)]
    constructor
    · rintro (h | h | h | h | h | h)
      · exact absurd h (hSumNo _ (by decide))
      · exact absurd h (hExpNo _ (by decide))
      · exact absurd h (hEduNo _ (by decide))
      · exact absurd h (hLangNo _ (by decide))
      · exact absurd h (hCertNo _ (by decide))
      · exact hVisIff.mp h
    · intro h
      exact Or.inr (Or.inr (Or.inr (Or.inr (Or.inr (hVisIff.mpr h)))))
  have hNA := basicInfo_na r
  have hbmem : ∀ o : Out, o ∈ basicInfoOuts r.fieldsJson →
      o ∈ (display_formatted_resume r.toJson fn).1 := by
    intro o ho
    rw [hdisp]
    exact List.mem_append.mpr (Or.inl (List.mem_append.mpr (Or.inr ho)))
  refine ⟨by rw [hdisp], iffSum, iffExp, iffEdu, iffLang, iffCert, iffVis,
    ?_, ?_, ?_, ?_⟩
  · intro h
    exact hbmem _ (hNA.1 h)
  · intro h
    exact hbmem _ (hNA.2.1 h)
  · intro h
    exact hbmem _ (hNA.2.2.1 h)
  · intro h
    exact hbmem _ (hNA.2.2.2 h)

/-- Witness for C6: a record with one work experience and no name renders the
Work Experience section and `N/A` for the name. -/
theorem c6_presentation_witness :
    Out.subheader "💼 Work Experience"
      ∈ (display_formatted_resume sampleRecord.toJson "cv.pdf").1
    ∧ Out.write "**Name:** N/A" ∈ (display_formatted_resume sampleRecord.toJson "cv.pdf").1
    ∧ ¬(Out.subheader "📝 Professional Summary"
        ∈ (display_formatted_resume sampleRecord.toJson "cv.pdf").1) := by
  have h := c6_presentation sampleRecord "cv.pdf"
  refine ⟨h.2.2.1.mpr ⟨_, rfl, by simp⟩, h.2.2.2.2.2.2.2.1 rfl, ?_⟩
  intro hmem
  rcases h.2.1.mp hmem with ⟨s, hs, _⟩
  exact Option.noConfusion hs

end ResumeApp
